import Mathlib

/-!
Shallow embedding of `src/seq_net.py`.

Tensors are modelled time-major as nested lists of rationals:
a 3-D sequence tensor of shape (time, batch, feature) is a
`List (List (List ℚ))`.  All layers are modelled in deterministic
evaluation mode (dropout is the identity, batch normalization uses its
stored running statistics).  The transcendental scalar primitives of the
underlying library (GELU, tanh, sigmoid, exp, and the reciprocal square
root used by the normalization layers and by scaled dot-product
attention) are not algebraic over ℚ, so they are passed in as an
explicit record of scalar functions `ScalarOps`; every structural claim
below is proved for all values of these primitives, and concrete
witnesses instantiate them.
-/

namespace SeqNet

abbrev Vec := List ℚ
abbrev Mat := List Vec
abbrev T3 := List Mat

/-- Record of the scalar primitives delegated to the numerical library:
`gelu`, `tanh`, `sigmoid`, `exp`, and `rsqrt x` standing for `1 / Real.sqrt x`. -/
structure ScalarOps where
  gelu : ℚ → ℚ
  tanh : ℚ → ℚ
  sigmoid : ℚ → ℚ
  exp : ℚ → ℚ
  rsqrt : ℚ → ℚ

/-- Dot product of two vectors (`torch` reduces over the common length). -/
def dot (a b : Vec) : ℚ := (List.zipWith (· * ·) a b).sum

/-- Matrix–vector product: one output entry per weight row. -/
def matvec (w : Mat) (x : Vec) : Vec := w.map (fun r => dot r x)

/-- Elementwise vector addition. -/
def vadd (a b : Vec) : Vec := List.zipWith (· + ·) a b

/-- Elementwise (Hadamard) vector product. -/
def vmul (a b : Vec) : Vec := List.zipWith (· * ·) a b

/-- Affine map of `nn.Linear`: `W x + b`. -/
def linearRow (w : Mat) (b : Vec) (x : Vec) : Vec := vadd (matvec w x) b

/-- Three-way `zipWith`. -/
def zip3With (f : α → β → γ → δ) : List α → List β → List γ → List δ
  | a :: as_, b :: bs, c :: cs => f a b c :: zip3With f as_ bs cs
  | _, _, _ => []

/-- Four-way `zipWith`. -/
def zip4With (f : α → β → γ → δ → ε) : List α → List β → List γ → List δ → List ε
  | a :: as_, b :: bs, c :: cs, d :: ds => f a b c d :: zip4With f as_ bs cs ds
  | _, _, _, _ => []

/-- Mean of the entries of a vector (0 on the empty vector, as `0 / 0 = 0` in ℚ). -/
def mean (x : Vec) : ℚ := x.sum / x.length

/-- Biased variance of the entries of a vector, as used by `nn.LayerNorm`. -/
def variance (x : Vec) : ℚ := ((x.map (fun v => (v - mean x) ^ 2)).sum) / x.length

/-- Default `eps` of `nn.LayerNorm` and `nn.BatchNorm1d` (`1e-5`). -/
def normEps : ℚ := 1 / 100000

/-- Row semantics of `nn.LayerNorm(n)` with weight `g` and bias `b`:
`g_i * (x_i - mean x) * rsqrt (var x + eps) + b_i`. -/
def layerNormRow (ops : ScalarOps) (g b x : Vec) : Vec :=
  zip3With (fun gi bi xi => gi * ((xi - mean x) * ops.rsqrt (variance x + normEps)) + bi) g b x

/-- One layer of the `nn.Sequential` stack built by `NnSeqBnMLP.__init__`, with its
parameters.  `batchNorm1d g b m v` is evaluation-mode `nn.BatchNorm1d` with weight
`g`, bias `b` and running statistics `m`, `v`; `geluLayer`/`tanhLayer` also serve as
the `nn.GELU()` / `nn.Tanh()` modules passed as the output `activation`. -/
inductive LayerP where
  | batchNorm1d (g b m v : Vec)
  | linear (w : Mat) (b : Vec)
  | geluLayer
  | layerNorm (g b : Vec)
  | tanhLayer

/-- Evaluation-mode action of a single layer on one feature row. -/
def applyLayer (ops : ScalarOps) : LayerP → Vec → Vec
  | .batchNorm1d g b m v, x =>
      zip4With (fun gi bi mi (p : ℚ × ℚ) => gi * ((p.2 - mi) * ops.rsqrt (p.1 + normEps)) + bi)
        g b m (v.zip x)
  | .linear w b, x => linearRow w b x
  | .geluLayer, x => x.map ops.gelu
  | .layerNorm g b, x => layerNormRow ops g b x
  | .tanhLayer, x => x.map ops.tanh

/-- Action of the whole `nn.Sequential` stack on one feature row
(each layer of the stacks built by `NnSeqBnMLP` acts row-wise in evaluation mode). -/
def applyMLP (ops : ScalarOps) (ls : List LayerP) (x : Vec) : Vec :=
  ls.foldl (fun v l => applyLayer ops l v) x

/-- Row-major reshape of a flat list of rows into `d0` blocks of `d1` rows each,
modelling `out.reshape(d0, d1, -1)` on a tensor of `d0 * d1` rows. -/
def reshapeChunks (d0 d1 : ℕ) (rows : List α) : List (List α) :=
  (List.range d0).map (fun i => (rows.drop (i * d1)).take d1)

/-- Shallow embedding of `NnSeqBnMLP.forward`:
`d0, d1, d2 = seq.shape`; `inp = seq.reshape(d0 * d1, -1)` (on a nested-list
tensor this flattening is `seq.join`); `out = self.mlp(inp)` applied row-wise
(evaluation mode); `return out.reshape(d0, d1, -1)`. -/
def seqMLPForward (ops : ScalarOps) (ls : List LayerP) (seq : T3) : T3 :=
  let d0 := seq.length
  let d1 := (seq.getD 0 []).length
  let inp := seq.flatten
  let out := inp.map (applyMLP ops ls)
  reshapeChunks d0 d1 out

/-! Recurrent layers.  `nn.LSTM` / `nn.GRU` with `batch_first=False` consume a
time-major sequence of batch matrices; each layer carries per-batch-row states. -/

/-- Vector of `n` zeros. -/
def zeros (n : ℕ) : Vec := List.replicate n 0

/-- Zero state matrix of `b` rows of size `h` (`torch` zero-initializes hidden
states when `None` is passed). -/
def zeroMat (b h : ℕ) : Mat := List.replicate b (zeros h)

/-- Parameters of one `nn.LSTM` layer: `wih : 4H × in`, `whh : 4H × H`,
biases of size `4H`, gate order `i, f, g, o`; `hiddenSize` is `H`. -/
structure LSTMLayer where
  wih : Mat
  whh : Mat
  bih : Vec
  bhh : Vec
  hiddenSize : ℕ

/-- One `nn.LSTM` cell step on a single batch row:
`gates = W_ih x + b_ih + W_hh h + b_hh`, split into `i, f, g, o`;
`c' = f ∘ c + i ∘ g`, `h' = o ∘ tanh c'`; returns `(h', c')`. -/
def lstmCellRow (ops : ScalarOps) (p : LSTMLayer) (h c x : Vec) : Vec × Vec :=
  let H := p.hiddenSize
  let gates := vadd (vadd (vadd (matvec p.wih x) p.bih) (matvec p.whh h)) p.bhh
  let i := (gates.take H).map ops.sigmoid
  let f := ((gates.drop H).take H).map ops.sigmoid
  let g := ((gates.drop (2 * H)).take H).map ops.tanh
  let o := ((gates.drop (3 * H)).take H).map ops.sigmoid
  let c2 := vadd (vmul f c) (vmul i g)
  (vmul o (c2.map ops.tanh), c2)

/-- One `nn.LSTM` cell step on a whole batch matrix; state is `(h, c)` with one
row per batch element, output is the new `h`. -/
def lstmCellBatch (ops : ScalarOps) (p : LSTMLayer) (st : Mat × Mat) (x : Mat) :
    Mat × (Mat × Mat) :=
  let rows := zip3With (fun h c xr => lstmCellRow ops p h c xr) st.1 st.2 x
  (rows.map Prod.fst, (rows.map Prod.fst, rows.map Prod.snd))

/-- Generic scan of a recurrent cell over a time-major sequence, returning the
per-step outputs and the final state. -/
def rnnSeq (cell : σ → α → β × σ) : σ → List α → List β × σ
  | s, [] => ([], s)
  | s, x :: xs =>
      let r := cell s x
      let rest := rnnSeq cell r.2 xs
      (r.1 :: rest.1, rest.2)

/-- Multi-layer `nn.LSTM`: the output sequence of each layer feeds the next;
states are listed per layer as in the `(num_layers, batch, hidden)` packing. -/
def lstmStack (ops : ScalarOps) : List LSTMLayer → List (Mat × Mat) → List Mat →
    List Mat × List (Mat × Mat)
  | [], _, xs => (xs, [])
  | p :: ps, sts, xs =>
      let r := rnnSeq (lstmCellBatch ops p) (sts.headD ([], [])) xs
      let rest := lstmStack ops ps sts.tail r.1
      (rest.1, r.2 :: rest.2)

/-- Shallow embedding of `nn.LSTM.forward` with an optional initial state
(`None` becomes zero states sized from the first input matrix). -/
def lstmForward (ops : ScalarOps) (ps : List LSTMLayer) (xs : List Mat)
    (hid : Option (List (Mat × Mat))) : List Mat × List (Mat × Mat) :=
  let B := (xs.getD 0 []).length
  let st0 := match hid with
    | some s => s
    | none => ps.map (fun p => (zeroMat B p.hiddenSize, zeroMat B p.hiddenSize))
  lstmStack ops ps st0 xs

/-- Parameters of one `nn.GRU` layer: `wih : 3H × in`, `whh : 3H × H`,
biases of size `3H`, gate order `r, z, n`. -/
structure GRULayer where
  wih : Mat
  whh : Mat
  bih : Vec
  bhh : Vec
  hiddenSize : ℕ

/-- One `nn.GRU` cell step on a single batch row:
`r = σ(gi_r + gh_r)`, `z = σ(gi_z + gh_z)`, `n = tanh(gi_n + r ∘ gh_n)`,
`h' = (1 - z) ∘ n + z ∘ h`. -/
def gruCellRow (ops : ScalarOps) (p : GRULayer) (h x : Vec) : Vec :=
  let H := p.hiddenSize
  let gi := vadd (matvec p.wih x) p.bih
  let gh := vadd (matvec p.whh h) p.bhh
  let r := (vadd (gi.take H) (gh.take H)).map ops.sigmoid
  let z := (vadd ((gi.drop H).take H) ((gh.drop H).take H)).map ops.sigmoid
  let n := (vadd ((gi.drop (2 * H)).take H) (vmul r ((gh.drop (2 * H)).take H))).map ops.tanh
  zip3With (fun zi ni hi => (1 - zi) * ni + zi * hi) z n h

/-- One `nn.GRU` cell step on a whole batch matrix. -/
def gruCellBatch (ops : ScalarOps) (p : GRULayer) (st : Mat) (x : Mat) : Mat × Mat :=
  let rows := List.zipWith (fun h xr => gruCellRow ops p h xr) st x
  (rows, rows)

/-- Multi-layer `nn.GRU`. -/
def gruStack (ops : ScalarOps) : List GRULayer → List Mat → List Mat →
    List Mat × List Mat
  | [], _, xs => (xs, [])
  | p :: ps, sts, xs =>
      let r := rnnSeq (gruCellBatch ops p) (sts.headD []) xs
      let rest := gruStack ops ps sts.tail r.1
      (rest.1, r.2 :: rest.2)

/-- Shallow embedding of `nn.GRU.forward` with an optional initial state. -/
def gruForward (ops : ScalarOps) (ps : List GRULayer) (xs : List Mat)
    (hid : Option (List Mat)) : List Mat × List Mat :=
  let B := (xs.getD 0 []).length
  let st0 := match hid with
    | some s => s
    | none => ps.map (fun p => zeroMat B p.hiddenSize)
  gruStack ops ps st0 xs

/-! The recurrent dual-branch network `RnnRegNet`. -/

abbrev LSTMHid := List (Mat × Mat)
abbrev GRUHid := List Mat

/-- Parameters of `RnnRegNet`: the four `NnSeqBnMLP` stacks and the two
recurrent encoders, plus the constructor dimensions. -/
structure RnnRegNetP where
  mlp_inp : List LayerP
  rnn1 : List LSTMLayer
  mlp1 : List LayerP
  rnn2 : List GRULayer
  mlp2 : List LayerP
  mlp_out : List LayerP

/-- Concatenation along the feature axis (`dim 2`) of two sequence tensors. -/
def concatDim2 (a b : T3) : T3 :=
  List.zipWith (fun m1 m2 => List.zipWith (· ++ ·) m1 m2) a b

/-- Shallow embedding of `RnnRegNet.forward`:
`hid1, hid2 = (None, None) if hid is None else hid`; `inp = mlp_inp(inp)`;
`rnn1, hid1 = rnn1(inp, hid1)`; `tmp1 = mlp1(rnn1)`; likewise for the GRU
branch; `tmp = concat((tmp1, tmp2), dim=2)`; `out = mlp_out(tmp)`;
returns `(out, (hid1, hid2))`. -/
def RnnRegNetForward (ops : ScalarOps) (p : RnnRegNetP) (inp : T3)
    (hid : Option (LSTMHid × GRUHid)) : T3 × (LSTMHid × GRUHid) :=
  let hp : Option LSTMHid × Option GRUHid := match hid with
    | none => (none, none)
    | some s => (some s.1, some s.2)
  let x := seqMLPForward ops p.mlp_inp inp
  let r1 := lstmForward ops p.rnn1 x hp.1
  let tmp1 := seqMLPForward ops p.mlp1 r1.1
  let r2 := gruForward ops p.rnn2 x hp.2
  let tmp2 := seqMLPForward ops p.mlp2 r2.1
  let tmp := concatDim2 tmp1 tmp2
  let out := seqMLPForward ops p.mlp_out tmp
  (out, (r1.2, r2.2))

/-- Elementwise application of a scalar criterion to two equally-shaped
sequence tensors, modelling `criterion(out, lab)` for an elementwise loss. -/
def elemwise3 (f : ℚ → ℚ → ℚ) (a b : T3) : T3 :=
  List.zipWith (fun m1 m2 => List.zipWith (fun v1 v2 => List.zipWith f v1 v2) m1 m2) a b

/-- Shallow embedding of `RnnRegNet.get_obj_value`:
`obj = criterion(out, lab)[wup_dim:, :, :]` — the slice `[wup_dim:]` along the
leading (time) axis with a nonnegative warm-up length is `List.drop`. -/
def RnnRegNetGetObjValue (crit : ℚ → ℚ → ℚ) (out lab : T3) (wup : ℕ) : T3 :=
  (elemwise3 crit out lab).drop wup

/-! The convolutional dual-branch network `DilatedCNNRegNet`. -/

/-- Zero-padded read of a time row at a signed index: reads outside the row,
on either side, yield the padding value `0` (`List.getD` already returns the
default `0` beyond the right end, and negative indices are padding reads). -/
def atPad (row : Vec) (i : ℤ) : ℚ :=
  if i < 0 then 0 else row.getD i.toNat 0

/-- Parameters of one `nn.Conv1d(..., dilation=d, padding='same')`:
`w : C_out × C_in × K`, `b : C_out`. -/
structure ConvLayer where
  w : List Mat
  b : Vec
  kernel : ℕ
  dil : ℕ

/-- Shallow embedding of `nn.Conv1d` with stride 1 and `padding='same'` on one
`(channels × time)` matrix: total padding is `dilation * (kernel - 1)`, split
with `left = total / 2` zeros before the sequence, so
`out[co][t] = b[co] + Σ_ci Σ_j w[co][ci][j] * x[ci][t + j*dilation - left]`. -/
def conv1dSame (c : ConvLayer) (x : Mat) : Mat :=
  let T := (x.getD 0 []).length
  let left := (c.dil * (c.kernel - 1)) / 2
  List.zipWith (fun wc bo =>
      (List.range T).map (fun (t : ℕ) =>
        bo + ((List.zipWith (fun xrow wrow =>
            ((List.range c.kernel).map (fun (j : ℕ) =>
              wrow.getD j 0 * atPad xrow ((t : ℤ) + (j : ℤ) * (c.dil : ℤ) - (left : ℤ)))).sum)
          x wc).sum)))
    c.w c.b

/-- Parameters of one `DilatedCNN` block: a `same`-padded dilated convolution
followed by evaluation-mode `nn.BatchNorm1d` (per output channel). -/
structure DilatedCNNLayer where
  conv : ConvLayer
  g : Vec
  b : Vec
  m : Vec
  v : Vec

/-- Evaluation-mode `nn.BatchNorm1d` on one channel row followed by `F.relu`. -/
def bnReluChannel (ops : ScalarOps) (gi bi mi vi : ℚ) (row : Vec) : Vec :=
  row.map (fun u => max 0 (gi * ((u - mi) * ops.rsqrt (vi + normEps)) + bi))

/-- Shallow embedding of `DilatedCNN.forward` on one `(channels × time)` matrix:
`x = conv(x)`; `x = bn(x)`; `return F.relu(x)`. -/
def dilatedCNNForward (ops : ScalarOps) (l : DilatedCNNLayer) (x : Mat) : Mat :=
  let y := conv1dSame l.conv x
  zip4With (fun gi bi mi (p : ℚ × Vec) => bnReluChannel ops gi bi mi p.1 p.2)
    l.g l.b l.m (l.v.zip y)

/-- Permutation `x.permute(1, 2, 0)` of a `(T, B, M)` nested-list tensor into
`(B, M, T)` layout: `result[b][m][t] = x[t][b][m]`. -/
def permute120 (x : T3) : T3 :=
  let T := x.length
  let B := (x.getD 0 []).length
  let M := ((x.getD 0 []).getD 0 []).length
  (List.range B).map (fun b => (List.range M).map (fun m => (List.range T).map (fun t =>
    ((x.getD t []).getD b []).getD m 0)))

/-- Permutation `y.permute(2, 0, 1)` of a `(B, M, T)` nested-list tensor into
`(T, B, M)` layout: `result[t][b][m] = y[b][m][t]`. -/
def permute201 (y : T3) : T3 :=
  let B := y.length
  let M := (y.getD 0 []).length
  let T := ((y.getD 0 []).getD 0 []).length
  (List.range T).map (fun t => (List.range B).map (fun b => (List.range M).map (fun m =>
    ((y.getD b []).getD m []).getD t 0)))

/-- Parameters of `DilatedCNNRegNet`: the three `NnSeqBnMLP` stacks and the two
`nn.ModuleList` branches of `DilatedCNN` blocks. -/
structure DilatedCNNRegNetP where
  mlp_inp : List LayerP
  branch1 : List DilatedCNNLayer
  mlp1 : List LayerP
  branch2 : List DilatedCNNLayer
  mlp2 : List LayerP
  mlp_out : List LayerP

/-- Output sequence computed by `DilatedCNNRegNet.forward`:
`x = mlp_inp(inp)`; `x = x.permute(1, 2, 0)`; each branch folds its
`DilatedCNN` blocks over `x` (independently per batch element), permutes back
with `(2, 0, 1)` and applies its MLP; the branch outputs are concatenated along
`dim=2` and passed through `mlp_out`. -/
def DilatedCNNRegNetOut (ops : ScalarOps) (p : DilatedCNNRegNetP) (inp : T3) : T3 :=
  let x := permute120 (seqMLPForward ops p.mlp_inp inp)
  let out1 := x.map (fun chans => p.branch1.foldl (fun acc l => dilatedCNNForward ops l acc) chans)
  let tmp1 := seqMLPForward ops p.mlp1 (permute201 out1)
  let out2 := x.map (fun chans => p.branch2.foldl (fun acc l => dilatedCNNForward ops l acc) chans)
  let tmp2 := seqMLPForward ops p.mlp2 (permute201 out2)
  seqMLPForward ops p.mlp_out (concatDim2 tmp1 tmp2)

/-- Shallow embedding of `DilatedCNNRegNet.forward`: the output sequence above
paired with `None` (no hidden state for CNNs), the `hid` argument being unused. -/
def DilatedCNNRegNetForward (ops : ScalarOps) (p : DilatedCNNRegNetP) (inp : T3)
    (_hid : Option α) : T3 × Option Unit :=
  (DilatedCNNRegNetOut ops p inp, none)

/-- Shallow embedding of `DilatedCNNRegNet.get_obj_value` (textually identical
to `RnnRegNet.get_obj_value`). -/
def DilatedCNNRegNetGetObjValue (crit : ℚ → ℚ → ℚ) (out lab : T3) (wup : ℕ) : T3 :=
  (elemwise3 crit out lab).drop wup

/-! The transformer dual-branch network `TransformerRegNet`.  It is modelled in
evaluation mode, so every dropout is the identity. -/

/-- Parameters of `nn.MultiheadAttention` used in self-attention: the three
slices of the input projection, the output projection, the head count and the
per-head dimension (`headDim * nhead = embed_dim`). -/
structure MHAP where
  wq : Mat
  wk : Mat
  wv : Mat
  bq : Vec
  bk : Vec
  bv : Vec
  wo : Mat
  bo : Vec
  nhead : ℕ
  headDim : ℕ

/-- Split of an embedding vector into `h` heads of `d` entries each. -/
def splitHeads (h d : ℕ) (v : Vec) : List Vec :=
  (List.range h).map (fun i => (v.drop (i * d)).take d)

/-- Softmax of a score vector, with `exp` taken from the scalar primitives. -/
def softmax (ops : ScalarOps) (v : Vec) : Vec :=
  let e := v.map ops.exp
  e.map (fun x => x / e.sum)

/-- Unmasked self-attention of `nn.MultiheadAttention` on one batch element,
given as the list of its `T` embedding rows: project to queries, keys and
values, split into heads, take softmax of the scaled dot-product scores over
the key positions, average the value rows, re-join the heads and apply the
output projection. -/
def attnSeq (ops : ScalarOps) (p : MHAP) (xs : List Vec) : List Vec :=
  let qs := xs.map (fun x => splitHeads p.nhead p.headDim (linearRow p.wq p.bq x))
  let ks := xs.map (fun x => splitHeads p.nhead p.headDim (linearRow p.wk p.bk x))
  let vs := xs.map (fun x => splitHeads p.nhead p.headDim (linearRow p.wv p.bv x))
  let scale := ops.rsqrt (p.headDim : ℚ)
  (List.range xs.length).map (fun t =>
    linearRow p.wo p.bo (((List.range p.nhead).map (fun i =>
      let scores := (List.range xs.length).map (fun u =>
        dot ((qs.getD t []).getD i []) ((ks.getD u []).getD i []) * scale)
      (List.zipWith (fun wu vv => vv.map (wu * ·))
        (softmax ops scores) (vs.map (fun l => l.getD i []))).foldl vadd
        (zeros p.headDim))).flatten))

/-- Column `b` of a `(T, B, E)` tensor: the sequence seen by one batch element. -/
def column (b : ℕ) (x : T3) : List Vec := x.map (fun m => m.getD b [])

/-- Self-attention over a `(T, B, E)` tensor with `batch_first=False`:
attention runs independently within each batch element's sequence. -/
def mhaForward (ops : ScalarOps) (p : MHAP) (x : T3) : T3 :=
  let T := x.length
  let B := (x.getD 0 []).length
  let cols := (List.range B).map (fun b => attnSeq ops p (column b x))
  (List.range T).map (fun t => cols.map (fun c => c.getD t []))

/-- Per-(time, batch) row map over a sequence tensor. -/
def map2T3 (f : Vec → Vec) (x : T3) : T3 := x.map (fun m => m.map f)

/-- Elementwise sum of two sequence tensors (the residual connections). -/
def addT3 (a b : T3) : T3 := List.zipWith (fun m1 m2 => List.zipWith vadd m1 m2) a b

/-- Rectified linear unit on one row (default activation of
`nn.TransformerEncoderLayer`). -/
def reluVec (v : Vec) : Vec := v.map (fun u => max 0 u)

/-- Parameters of one `nn.TransformerEncoderLayer` (wrapped by
`TransformerEncoderBlock`): self-attention, the two layer norms, and the
feed-forward pair of linear layers. -/
structure EncLayerP where
  attn : MHAP
  ln1_g : Vec
  ln1_b : Vec
  ln2_g : Vec
  ln2_b : Vec
  lin1_w : Mat
  lin1_b : Vec
  lin2_w : Mat
  lin2_b : Vec

/-- Shallow embedding of `nn.TransformerEncoderLayer.forward` in evaluation
mode with `norm_first=False` (the default used by `TransformerEncoderBlock`):
`x = norm1(x + self_attn(x))`; `x = norm2(x + linear2(relu(linear1(x))))`. -/
def encLayerForward (ops : ScalarOps) (p : EncLayerP) (x : T3) : T3 :=
  let x1 := map2T3 (layerNormRow ops p.ln1_g p.ln1_b) (addT3 x (mhaForward ops p.attn x))
  let ff := fun v => linearRow p.lin2_w p.lin2_b (reluVec (linearRow p.lin1_w p.lin1_b v))
  map2T3 (layerNormRow ops p.ln2_g p.ln2_b) (addT3 x1 (map2T3 ff x1))

/-- Parameters of `TransformerRegNet`: three `NnSeqBnMLP` stacks and the two
`nn.Sequential` stacks of `TransformerEncoderBlock`s. -/
structure TransformerRegNetP where
  mlp_inp : List LayerP
  blocks1 : List EncLayerP
  mlp1 : List LayerP
  blocks2 : List EncLayerP
  mlp2 : List LayerP
  mlp_out : List LayerP

/-- Output sequence computed by `TransformerRegNet.forward`:
`x = mlp_inp(inp)`; `tmp1 = mlp1(transformer1(x))`; `tmp2 = mlp2(transformer2(x))`;
`tmp = cat((tmp1, tmp2), dim=2)`; `out = mlp_out(tmp)`. -/
def TransformerRegNetOut (ops : ScalarOps) (p : TransformerRegNetP) (inp : T3) : T3 :=
  let x := seqMLPForward ops p.mlp_inp inp
  let tmp1 := seqMLPForward ops p.mlp1 (p.blocks1.foldl (fun a l => encLayerForward ops l a) x)
  let tmp2 := seqMLPForward ops p.mlp2 (p.blocks2.foldl (fun a l => encLayerForward ops l a) x)
  seqMLPForward ops p.mlp_out (concatDim2 tmp1 tmp2)

/-- Shallow embedding of `TransformerRegNet.forward`: the output sequence above
paired with `None` (no hidden state), the `hid` argument being unused. -/
def TransformerRegNetForward (ops : ScalarOps) (p : TransformerRegNetP) (inp : T3)
    (_hid : Option α) : T3 × Option Unit :=
  (TransformerRegNetOut ops p inp, none)

/-- Shallow embedding of `TransformerRegNet.get_obj_value` (textually identical
to `RnnRegNet.get_obj_value`). -/
def TransformerRegNetGetObjValue (crit : ℚ → ℚ → ℚ) (out lab : T3) (wup : ℕ) : T3 :=
  (elemwise3 crit out lab).drop wup

/-! Structural mirror of `NnSeqBnMLP.__init__`: which layer modules are
appended, in which order and with which dimensions. -/

/-- Kind (and dimensions) of one module appended by `NnSeqBnMLP.__init__`:
`batchNormK d` is `nn.BatchNorm1d(d, momentum=0.9)`, `linearK a b` is
`nn.Linear(a, b)`, `geluK` is `nn.GELU()`, `layerNormK d` is `nn.LayerNorm(d)`,
and `outActK` is the supplied output `activation` module. -/
inductive LayerKind where
  | batchNormK (d : ℕ)
  | linearK (a b : ℕ)
  | geluK
  | layerNormK (d : ℕ)
  | outActK
deriving DecidableEq

/-- Shallow embedding of the layer list built by `NnSeqBnMLP.__init__`:
an input batch norm when `if_inp_norm`; `Linear(dims[0], dims[1])`; then for
`i in range(1, len(dims) - 1)` a `GELU`, a `LayerNorm(dims[i])` when
`if_layer_norm`, and `Linear(dims[i], dims[i+1])`; finally the output
activation when one is supplied. -/
def mkMLPKinds (dims : List ℕ) (ifInpNorm ifLayerNorm hasAct : Bool) : List LayerKind :=
  (if ifInpNorm then [LayerKind.batchNormK (dims.getD 0 0)] else [])
    ++ [LayerKind.linearK (dims.getD 0 0) (dims.getD 1 0)]
    ++ ((List.range' 1 (dims.length - 2)).flatMap (fun i =>
          [LayerKind.geluK]
            ++ (if ifLayerNorm then [LayerKind.layerNormK (dims.getD i 0)] else [])
            ++ [LayerKind.linearK (dims.getD i 0) (dims.getD (i + 1) 0)]))
    ++ (if hasAct then [LayerKind.outActK] else [])

/-- Description, written from the specification's words, of the repeated
`(nonlinearity → optional layer-normalization → linear)` section as a
structural recursion over the successive dimension pairs. -/
def specMLPChain (ifLayerNorm : Bool) : List ℕ → List LayerKind
  | a :: b :: rest =>
      LayerKind.geluK ::
        ((if ifLayerNorm then [LayerKind.layerNormK a] else [])
          ++ (LayerKind.linearK a b :: specMLPChain ifLayerNorm (b :: rest)))
  | _ => []

/-- Description, written from the specification's words, of the whole stack:
optional input normalization, `Linear(dims[0], dims[1])`, the chain over the
remaining consecutive pairs, and the optional output activation. -/
def specMLPKinds (dims : List ℕ) (ifInpNorm ifLayerNorm hasAct : Bool) : List LayerKind :=
  match dims with
  | d0 :: d1 :: rest =>
      (if ifInpNorm then [LayerKind.batchNormK d0] else [])
        ++ [LayerKind.linearK d0 d1]
        ++ specMLPChain ifLayerNorm (d1 :: rest)
        ++ (if hasAct then [LayerKind.outActK] else [])
  | _ => []

/-! Rank checking of `NnSeqBnMLP.forward`.  The nested-list tensors above are
3-D by construction, so the failure of `d0, d1, d2 = seq.shape` on tensors of
any other rank is modelled on a shape-carrying flat tensor. -/

/-- Flat tensor carrying an explicit shape, as a `torch` tensor does: `data` is
the row-major flattening and is meaningful when `data.length = shape.prod`. -/
structure PyTensor where
  shape : List ℕ
  data : List ℚ

/-- Shallow embedding of `NnSeqBnMLP.forward` on a shape-carrying tensor: the
destructuring `d0, d1, d2 = seq.shape` succeeds exactly on rank-3 shapes (on
any other rank the Python unpacking raises, modelled as `none`); then the body
reshapes to `(d0 * d1, -1)` rows, applies the stack row-wise and reshapes back. -/
def seqMLPForwardChecked (ops : ScalarOps) (ls : List LayerP) (t : PyTensor) :
    Option PyTensor :=
  match t.shape with
  | [d0, d1, d2] =>
      let rows := reshapeChunks (d0 * d1) d2 t.data
      let out := rows.map (applyMLP ops ls)
      some ⟨[d0, d1, (out.getD 0 []).length], out.flatten⟩
  | _ => none

/-- Rank-3 decoding of a flat tensor into the nested-list representation. -/
def toT3 (d0 d1 d2 : ℕ) (data : List ℚ) : T3 :=
  reshapeChunks d0 d1 (reshapeChunks (d0 * d1) d2 data)

/-- Entry point of `RnnRegNet.forward` on a shape-carrying tensor: its first
statement applies `self.mlp_inp`, whose shape destructuring raises unless the
input is rank 3; on rank-3 input the computation proceeds as
`RnnRegNetForward`. -/
def RnnRegNetForwardChecked (ops : ScalarOps) (p : RnnRegNetP) (t : PyTensor)
    (hid : Option (LSTMHid × GRUHid)) : Option (T3 × (LSTMHid × GRUHid)) :=
  match t.shape with
  | [d0, d1, d2] => some (RnnRegNetForward ops p (toT3 d0 d1 d2 t.data) hid)
  | _ => none

/-- Entry point of `DilatedCNNRegNet.forward` on a shape-carrying tensor
(same rank-3 requirement, raised by the first `self.mlp_inp` application). -/
def DilatedCNNRegNetForwardChecked (ops : ScalarOps) (p : DilatedCNNRegNetP)
    (t : PyTensor) (hid : Option α) : Option (T3 × Option Unit) :=
  match t.shape with
  | [d0, d1, d2] => some (DilatedCNNRegNetForward ops p (toT3 d0 d1 d2 t.data) hid)
  | _ => none

/-- Entry point of `TransformerRegNet.forward` on a shape-carrying tensor
(same rank-3 requirement, raised by the first `self.mlp_inp` application). -/
def TransformerRegNetForwardChecked (ops : ScalarOps) (p : TransformerRegNetP)
    (t : PyTensor) (hid : Option α) : Option (T3 × Option Unit) :=
  match t.shape with
  | [d0, d1, d2] => some (TransformerRegNetForward ops p (toT3 d0 d1 d2 t.data) hid)
  | _ => none

/-! Shape predicates and dimension bookkeeping. -/

/-- Well-formedness of a nested-list tensor of shape `(T, B, F)`. -/
@[reducible] def isShape3 (x : T3) (T B F : ℕ) : Prop :=
  x.length = T ∧ ∀ m ∈ x, m.length = B ∧ ∀ v ∈ m, v.length = F

/-- Entry of a nested-list tensor at position `(t, b, f)`. -/
def entry3 (x : T3) (t b f : ℕ) : ℚ := ((x.getD t []).getD b []).getD f 0

/-- Output feature count of one layer given its input feature count
(only a linear layer changes it, to its number of weight rows). -/
@[reducible] def layerOutDim : LayerP → ℕ → ℕ
  | .linear w _, _ => w.length
  | _, n => n

/-- Dimension constraints tying one layer's parameters to its input size `n`. -/
@[reducible] def layerWf : LayerP → ℕ → Prop
  | .batchNorm1d g b m v, n => g.length = n ∧ b.length = n ∧ m.length = n ∧ v.length = n
  | .linear w b, _ => b.length = w.length
  | .geluLayer, _ => True
  | .layerNorm g b, n => g.length = n ∧ b.length = n
  | .tanhLayer, _ => True

/-- Dimension constraints of a whole stack, threading the feature count. -/
@[reducible] def mlpWf : List LayerP → ℕ → Prop
  | [], _ => True
  | l :: ls, n => layerWf l n ∧ mlpWf ls (layerOutDim l n)

/-- Output feature count of a whole stack given its input feature count. -/
@[reducible] def mlpOutDim (ls : List LayerP) (n : ℕ) : ℕ :=
  ls.foldl (fun m l => layerOutDim l m) n

/-- Dimension constraints of one `nn.LSTM` layer (four blocks of `H` gates). -/
@[reducible] def lstmLayerWf (p : LSTMLayer) : Prop :=
  p.wih.length = 4 * p.hiddenSize ∧ p.whh.length = 4 * p.hiddenSize ∧
    p.bih.length = 4 * p.hiddenSize ∧ p.bhh.length = 4 * p.hiddenSize

/-- Dimension constraints of one `nn.GRU` layer (three blocks of `H` gates). -/
@[reducible] def gruLayerWf (p : GRULayer) : Prop :=
  p.wih.length = 3 * p.hiddenSize ∧ p.whh.length = 3 * p.hiddenSize ∧
    p.bih.length = 3 * p.hiddenSize ∧ p.bhh.length = 3 * p.hiddenSize

/-- Dimension constraints of `RnnRegNet(inp_dim, mid_dim, out_dim, num_layers)`
as built by its constructor. -/
@[reducible] def RnnRegNetWf (p : RnnRegNetP) (inp mid out : ℕ) : Prop :=
  (mlpWf p.mlp_inp inp ∧ mlpOutDim p.mlp_inp inp = mid) ∧
    (∀ l ∈ p.rnn1, lstmLayerWf l ∧ l.hiddenSize = mid) ∧
    (mlpWf p.mlp1 mid ∧ mlpOutDim p.mlp1 mid = mid) ∧
    (∀ l ∈ p.rnn2, gruLayerWf l ∧ l.hiddenSize = mid) ∧
    (mlpWf p.mlp2 mid ∧ mlpOutDim p.mlp2 mid = mid) ∧
    (mlpWf p.mlp_out (mid + mid) ∧ mlpOutDim p.mlp_out (mid + mid) = out)

/-- Dimension constraints of one `DilatedCNN` block with `mid` channels. -/
@[reducible] def dilatedLayerWf (l : DilatedCNNLayer) (mid : ℕ) : Prop :=
  l.conv.w.length = mid ∧ l.conv.b.length = mid ∧
    l.g.length = mid ∧ l.b.length = mid ∧ l.m.length = mid ∧ l.v.length = mid

/-- Dimension constraints of `DilatedCNNRegNet(inp_dim, mid_dim, out_dim, ...)`. -/
@[reducible] def DilatedCNNRegNetWf (p : DilatedCNNRegNetP) (inp mid out : ℕ) : Prop :=
  (mlpWf p.mlp_inp inp ∧ mlpOutDim p.mlp_inp inp = mid) ∧
    (∀ l ∈ p.branch1, dilatedLayerWf l mid) ∧
    (mlpWf p.mlp1 mid ∧ mlpOutDim p.mlp1 mid = mid) ∧
    (∀ l ∈ p.branch2, dilatedLayerWf l mid) ∧
    (mlpWf p.mlp2 mid ∧ mlpOutDim p.mlp2 mid = mid) ∧
    (mlpWf p.mlp_out (mid + mid) ∧ mlpOutDim p.mlp_out (mid + mid) = out)

/-- Dimension constraints of one `TransformerEncoderBlock` with `d_model = mid`. -/
@[reducible] def encLayerWf (l : EncLayerP) (mid : ℕ) : Prop :=
  l.attn.wo.length = mid ∧ l.attn.bo.length = mid ∧
    l.lin2_w.length = mid ∧ l.lin2_b.length = mid ∧
    l.ln1_g.length = mid ∧ l.ln1_b.length = mid ∧
    l.ln2_g.length = mid ∧ l.ln2_b.length = mid

/-- Dimension constraints of `TransformerRegNet(inp_dim, mid_dim, out_dim, ...)`. -/
@[reducible] def TransformerRegNetWf (p : TransformerRegNetP) (inp mid out : ℕ) : Prop :=
  (mlpWf p.mlp_inp inp ∧ mlpOutDim p.mlp_inp inp = mid) ∧
    (∀ l ∈ p.blocks1, encLayerWf l mid) ∧
    (mlpWf p.mlp1 mid ∧ mlpOutDim p.mlp1 mid = mid) ∧
    (∀ l ∈ p.blocks2, encLayerWf l mid) ∧
    (mlpWf p.mlp2 mid ∧ mlpOutDim p.mlp2 mid = mid) ∧
    (mlpWf p.mlp_out (mid + mid) ∧ mlpOutDim p.mlp_out (mid + mid) = out)

/-- Agreement of two time-major sequence tensors at every time step up to and
including `k`: equal lengths and equal time slices `u[s]` for all `s ≤ k`. -/
@[reducible] def timeAgree (k : ℕ) (u v : T3) : Prop :=
  u.length = v.length ∧ ∀ s ≤ k, u.getD s [] = v.getD s []

/-- Agreement of two `(channels × time)` matrices at every time index up to and
including `k`: equal channel counts, equal row lengths, and equal entries
`m[c][s]` for all channels `c` and all `s ≤ k`. -/
@[reducible] def matAgree (k : ℕ) (m1 m2 : Mat) : Prop :=
  m1.length = m2.length ∧ (∀ c, (m1.getD c []).length = (m2.getD c []).length) ∧
    ∀ c s, s ≤ k → (m1.getD c []).getD s 0 = (m2.getD c []).getD s 0

/-- Well-formedness of a matrix of `B` rows of `H` entries each. -/
@[reducible] def matWf (m : Mat) (B H : ℕ) : Prop :=
  m.length = B ∧ ∀ v ∈ m, v.length = H

/-- Well-formedness of one LSTM layer state `(h, c)`. -/
@[reducible] def lstmStateWf (st : Mat × Mat) (B H : ℕ) : Prop :=
  matWf st.1 B H ∧ matWf st.2 B H

/-- Well-formedness of the per-layer LSTM state list against the layer list. -/
@[reducible] def lstmStWf : List LSTMLayer → List (Mat × Mat) → ℕ → Prop
  | [], _, _ => True
  | p :: ps, sts, B => lstmStateWf (sts.headD ([], [])) B p.hiddenSize ∧ lstmStWf ps sts.tail B

/-- Well-formedness of the per-layer GRU state list against the layer list. -/
@[reducible] def gruStWf : List GRULayer → List Mat → ℕ → Prop
  | [], _, _ => True
  | p :: ps, sts, B => matWf (sts.headD []) B p.hiddenSize ∧ gruStWf ps sts.tail B

/-! Mirror definitions written from the specification's words, for the
refinement claims about the dual-branch fusion pattern. -/

/-- Mirror of the spec's recurrent branch: a recurrent encoder followed by its
own normalization+MLP block (LSTM variant). -/
def rnnBranchLSTM (ops : ScalarOps) (cells : List LSTMLayer) (mlp : List LayerP)
    (x : T3) (h : Option LSTMHid) : T3 × LSTMHid :=
  let r := lstmForward ops cells x h
  (seqMLPForward ops mlp r.1, r.2)

/-- Mirror of the spec's recurrent branch (GRU variant). -/
def rnnBranchGRU (ops : ScalarOps) (cells : List GRULayer) (mlp : List LayerP)
    (x : T3) (h : Option GRUHid) : T3 × GRUHid :=
  let r := gruForward ops cells x h
  (seqMLPForward ops mlp r.1, r.2)

/-- Mirror, written from the specification's words, of the recurrent
dual-branch network: run the two independent branches on the projected input,
concatenate their outputs along the feature axis, project through the final
normalization+MLP block, and return the output together with both branches'
updated hidden states (`hid=None` standing for the pair `(None, None)`). -/
def RnnRegNetSpec (ops : ScalarOps) (p : RnnRegNetP) (inp : T3)
    (hid : Option (LSTMHid × GRUHid)) : T3 × (LSTMHid × GRUHid) :=
  let h1 : Option LSTMHid := match hid with | none => none | some s => some s.1
  let h2 : Option GRUHid := match hid with | none => none | some s => some s.2
  let x := seqMLPForward ops p.mlp_inp inp
  let b1 := rnnBranchLSTM ops p.rnn1 p.mlp1 x h1
  let b2 := rnnBranchGRU ops p.rnn2 p.mlp2 x h2
  (seqMLPForward ops p.mlp_out (concatDim2 b1.1 b2.1), (b1.2, b2.2))

/-- Mirror of the spec's transformer branch: a sequential stack of encoder
blocks followed by its own normalization+MLP block. -/
def transformerBranch (ops : ScalarOps) (blocks : List EncLayerP) (mlp : List LayerP)
    (x : T3) : T3 :=
  seqMLPForward ops mlp (blocks.foldl (fun a l => encLayerForward ops l a) x)

/-- Mirror, written from the specification's words, of the transformer
dual-branch network: the projected input is fed to two independent branches,
their outputs are concatenated along the feature axis and passed through the
final normalization+MLP block. -/
def TransformerRegNetSpec (ops : ScalarOps) (p : TransformerRegNetP) (inp : T3) : T3 :=
  let x := seqMLPForward ops p.mlp_inp inp
  seqMLPForward ops p.mlp_out
    (concatDim2 (transformerBranch ops p.blocks1 p.mlp1 x)
      (transformerBranch ops p.blocks2 p.mlp2 x))

/-- Step-by-step driver of `check_rnn_in_real_trading`: feed the input one time
step at a time (`inp[t].unsqueeze(0)` is the singleton tensor `[x]`), starting
from hidden state `None` and threading each returned hidden-state pair into the
next call; the per-step outputs are collected in order. -/
def rnnStepOutputs (ops : ScalarOps) (p : RnnRegNetP) :
    List Mat → Option (LSTMHid × GRUHid) → List T3
  | [], _ => []
  | x :: xs, h =>
      let r := RnnRegNetForward ops p [x] h
      r.1 :: rnnStepOutputs ops p xs (some r.2)

/-- Forward pass of `RnnRegNet` with explicit recurrent states (the common
form that both the `hid=None` and the `hid=(hid1, hid2)` paths of `forward`
reduce to once the initial states are resolved). -/
def rnnFwdSt (ops : ScalarOps) (p : RnnRegNetP) (st1 : LSTMHid) (st2 : GRUHid)
    (xs : List Mat) : T3 × (LSTMHid × GRUHid) :=
  let x := seqMLPForward ops p.mlp_inp xs
  let r1 := lstmStack ops p.rnn1 st1 x
  let tmp1 := seqMLPForward ops p.mlp1 r1.1
  let r2 := gruStack ops p.rnn2 st2 x
  let tmp2 := seqMLPForward ops p.mlp2 r2.1
  (seqMLPForward ops p.mlp_out (concatDim2 tmp1 tmp2), (r1.2, r2.2))

/-- Number of future time steps a `same`-padded dilated convolution can reach:
the right padding `d*(k-1) - d*(k-1)/2` of the symmetric split. -/
def convLookahead (c : ConvLayer) : ℕ :=
  c.dil * (c.kernel - 1) - c.dil * (c.kernel - 1) / 2

/-- Total lookahead of a branch of stacked `DilatedCNN` blocks. -/
def branchLookahead (ls : List DilatedCNNLayer) : ℕ :=
  (ls.map (fun l => convLookahead l.conv)).sum

/-- Concrete instantiation of the scalar primitives (identity everywhere),
used by the witnesses and counterexamples; the claim theorems themselves hold
for every `ScalarOps`. -/
def idOps : ScalarOps := ⟨id, id, id, id, id⟩

/-- Concrete 1→1 linear layer used by witnesses. -/
@[reducible] def witLin1 : LayerP := .linear [[1]] [0]

/-- Concrete 2→1 linear layer used by witnesses. -/
@[reducible] def witLin2 : LayerP := .linear [[1, 1]] [0]

/-- Concrete recurrent network (`inp = mid = out = 1`, no recurrent layers)
used by witnesses. -/
@[reducible] def witRnnP : RnnRegNetP := ⟨[witLin1], [], [witLin1], [], [witLin1], [witLin2]⟩

/-- Concrete one-layer LSTM (input and hidden size 1) used by witnesses. -/
@[reducible] def witLSTM : LSTMLayer := ⟨[[1], [1], [1], [1]], [[1], [1], [1], [1]],
  [0, 0, 0, 0], [0, 0, 0, 0], 1⟩

/-- Concrete one-layer GRU (input and hidden size 1) used by witnesses. -/
@[reducible] def witGRU : GRULayer := ⟨[[1], [1], [1]], [[1], [1], [1]],
  [0, 0, 0], [0, 0, 0], 1⟩

/-- Concrete recurrent network with one LSTM and one GRU layer, used by the
step-vs-batched witness. -/
@[reducible] def witRnnP2 : RnnRegNetP :=
  ⟨[witLin1], [witLSTM], [witLin1], [witGRU], [witLin1], [witLin2]⟩

/-- Concrete convolutional network used by witnesses. -/
@[reducible] def witCnnP : DilatedCNNRegNetP :=
  ⟨[witLin1], [], [witLin1], [], [witLin1], [witLin2]⟩

/-- Concrete transformer network used by witnesses. -/
@[reducible] def witTransP : TransformerRegNetP :=
  ⟨[witLin1], [], [witLin1], [], [witLin1], [witLin2]⟩

/-- Scalar primitives used by the causality counterexample: identities, with
the reciprocal square root constantly `1` so that the normalization layers act
as pure centering. -/
def cexOps : ScalarOps := ⟨id, id, id, id, fun _ => 1⟩

/-- Input stack of the counterexample network: `NnSeqBnMLP((1, 2, 2))` with
`Linear(1,2)` splitting the scalar input into `(a, -a)` and identity second
linear layer. -/
def cexMLPInp : List LayerP :=
  [.linear [[1], [-1]] [0, 0], .geluLayer, .layerNorm [1, 1] [0, 0],
    .linear [[1, 0], [0, 1]] [0, 0], .geluLayer]

/-- Counterexample `DilatedCNN` block (2 channels, kernel 3, dilation 2,
`'same'` padding): output channel 0 reads input channel 0 at kernel position 2
— which under the symmetric padding is the input two steps in the future —
and output channel 1 is zero; the batch norm is the identity. -/
def cexConv : DilatedCNNLayer :=
  ⟨⟨[[[0, 0, 1], [0, 0, 0]], [[0, 0, 0], [0, 0, 0]]], [0, 0], 3, 2⟩,
    [1, 1], [0, 0], [0, 0], [1, 1]⟩

/-- Per-branch MLP of the counterexample network (`NnSeqBnMLP((2, 2, 2))`,
identity linear layers). -/
def cexMLP1 : List LayerP :=
  [.linear [[1, 0], [0, 1]] [0, 0], .geluLayer, .layerNorm [1, 1] [0, 0],
    .linear [[1, 0], [0, 1]] [0, 0], .geluLayer]

/-- Output MLP of the counterexample network (`NnSeqBnMLP((4, 4, 1))`). -/
def cexMLPOut : List LayerP :=
  [.linear [[1, 0, 0, 0], [0, 1, 0, 0], [0, 0, 1, 0], [0, 0, 0, 1]] [0, 0, 0, 0],
    .geluLayer, .layerNorm [1, 1, 1, 1] [0, 0, 0, 0], .linear [[1, 0, 0, 0]] [0],
    .tanhLayer]

/-- Counterexample `DilatedCNNRegNet` (`inp_dim=1`, `mid_dim=2`, `out_dim=1`,
one `DilatedCNN` block per branch with the constructor's default kernel size 3
and dilation 2). -/
def cexCnnP : DilatedCNNRegNetP :=
  ⟨cexMLPInp, [cexConv], cexMLP1, [cexConv], cexMLP1, cexMLPOut⟩

/-- Counterexample input pair: both sequences have shape `(3, 1, 1)` and agree
at every time step up to and including `t = 0` (indeed up to `t = 1`), and
differ only at the last time step. -/
def cexU : T3 := [[[0]], [[0]], [[4]]]

/-- Second input of the counterexample pair. -/
def cexV : T3 := [[[0]], [[0]], [[8]]]

/-! Helper lemmas. -/

theorem reshapeChunks_nil {α} (B : ℕ) (rows : List α) : reshapeChunks 0 B rows = [] := by
  simp [reshapeChunks]

theorem reshapeChunks_cons {α} (B T : ℕ) (blk rest : List α) (h : blk.length = B) :
    reshapeChunks (T + 1) B (blk ++ rest) = blk :: reshapeChunks T B rest := by
  unfold reshapeChunks
  rw [List.range_succ_eq_map]
  simp only [List.map_cons, List.map_map]
  congr 1
  · simp [h, List.take_append]
  · apply List.map_congr_left
    intro i _
    simp only [Function.comp_apply, Nat.succ_eq_add_one, add_mul, one_mul]
    rw [add_comm (i * B) B, ← h, List.drop_append]

theorem reshape_flatten_map (f : Vec → Vec) (B : ℕ) :
    ∀ seq : T3, (∀ m ∈ seq, m.length = B) →
      reshapeChunks seq.length B (seq.flatten.map f) = seq.map (fun m => m.map f)
  | [], _ => by simp [reshapeChunks_nil]
  | m :: rest, h => by
      have hm : m.length = B := h m (by simp)
      have hrest : ∀ x ∈ rest, x.length = B := fun x hx => h x (by simp [hx])
      simp only [List.flatten_cons, List.map_append, List.length_cons, List.map_cons]
      rw [reshapeChunks_cons B rest.length (m.map f) (rest.flatten.map f) (by simp [hm])]
      rw [reshape_flatten_map f B rest hrest]

/-- Central fact about `NnSeqBnMLP.forward` on a well-formed tensor: flattening
the leading two axes, applying the stack row-wise and reshaping back is the
per-timestep-per-batch-element map of the stack. -/
theorem seqMLPForward_eq_map (ops : ScalarOps) (ls : List LayerP) (seq : T3) (B : ℕ)
    (hB : ∀ m ∈ seq, m.length = B) :
    seqMLPForward ops ls seq = seq.map (fun m => m.map (applyMLP ops ls)) := by
  cases seq with
  | nil => simp [seqMLPForward, reshapeChunks_nil]
  | cons m rest =>
      have hm : m.length = B := hB m (by simp)
      show reshapeChunks (m :: rest).length (((m :: rest).getD 0 []).length)
        ((m :: rest).flatten.map (applyMLP ops ls)) = _
      rw [show ((m :: rest).getD 0 []).length = B from hm]
      exact reshape_flatten_map (applyMLP ops ls) B (m :: rest) hB

theorem getD_map_of_lt {α β} (f : α → β) (l : List α) (i : ℕ) (d : β) (d' : α)
    (h : i < l.length) : (l.map f).getD i d = f (l.getD i d') := by
  rw [List.getD_eq_getElem?_getD, List.getD_eq_getElem?_getD, List.getElem?_map,
    List.getElem?_eq_getElem h]
  simp

theorem getD_of_le {α} (l : List α) (i : ℕ) (d : α) (h : l.length ≤ i) :
    l.getD i d = d := by
  rw [List.getD_eq_getElem?_getD, List.getElem?_eq_none (by omega)]
  rfl

theorem seqMLPForward_length (ops : ScalarOps) (ls : List LayerP) (seq : T3) (B : ℕ)
    (hB : ∀ m ∈ seq, m.length = B) : (seqMLPForward ops ls seq).length = seq.length := by
  rw [seqMLPForward_eq_map ops ls seq B hB, List.length_map]

theorem getD_mem_of_lt {α} (l : List α) (i : ℕ) (d : α) (h : i < l.length) :
    l.getD i d ∈ l := by
  rw [List.getD_eq_getElem l d h]
  exact List.getElem_mem h

theorem seqMLPForward_entry (ops : ScalarOps) (ls : List LayerP) (seq : T3) (B : ℕ)
    (hB : ∀ m ∈ seq, m.length = B) (t b : ℕ) (ht : t < seq.length) (hb : b < B) :
    ((seqMLPForward ops ls seq).getD t []).getD b []
      = applyMLP ops ls ((seq.getD t []).getD b []) := by
  rw [seqMLPForward_eq_map ops ls seq B hB,
    getD_map_of_lt (fun m => m.map (applyMLP ops ls)) seq t [] [] ht,
    getD_map_of_lt (applyMLP ops ls) (seq.getD t []) b [] []
      (by rw [hB (seq.getD t []) (getD_mem_of_lt seq t [] ht)]; exact hb)]

theorem seqMLPForward_entry_default (ops : ScalarOps) (ls : List LayerP) (seq : T3)
    (B : ℕ) (hB : ∀ m ∈ seq, m.length = B) (t b : ℕ) (h : ¬(t < seq.length ∧ b < B)) :
    ((seqMLPForward ops ls seq).getD t []).getD b [] = [] := by
  rw [seqMLPForward_eq_map ops ls seq B hB]
  by_cases ht : t < seq.length
  · have hb : B ≤ b := by omega
    rw [getD_map_of_lt (fun m => m.map (applyMLP ops ls)) seq t [] [] ht]
    exact getD_of_le _ b []
      (by rw [List.length_map, hB (seq.getD t []) (getD_mem_of_lt seq t [] ht)]; exact hb)
  · rw [getD_of_le _ t [] (by rw [List.length_map]; omega)]
    rfl

/-- C4: `NnSeqBnMLP.forward` acts per-timestep-per-batch-element: on a 3-D
sequence tensor of uniform batch size, the output slice at position `(t, b)`
equals the layer stack applied to the input slice at `(t, b)` alone; forward
equals flattening the leading two axes, applying the stack to each row, and
reshaping back; and changing the input at one `(time step, batch element)`
position never changes the output at any other position. -/
theorem C4_nnSeqBnMLP_pointwise (ops : ScalarOps) (ls : List LayerP) (seq : T3) (B : ℕ)
    (hB : ∀ m ∈ seq, m.length = B) :
    seqMLPForward ops ls seq = seq.map (fun m => m.map (applyMLP ops ls)) ∧
    (∀ t b, t < seq.length → b < B →
      ((seqMLPForward ops ls seq).getD t []).getD b []
        = applyMLP ops ls ((seq.getD t []).getD b [])) ∧
    (∀ seq' : T3, (∀ m ∈ seq', m.length = B) → seq'.length = seq.length →
      ∀ t0 b0,
        (∀ t b, ¬(t = t0 ∧ b = b0) →
          (seq.getD t []).getD b [] = (seq'.getD t []).getD b []) →
        ∀ t b, ¬(t = t0 ∧ b = b0) →
          ((seqMLPForward ops ls seq).getD t []).getD b []
            = ((seqMLPForward ops ls seq').getD t []).getD b []) := by
  refine ⟨seqMLPForward_eq_map ops ls seq B hB,
    fun t b ht hb => seqMLPForward_entry ops ls seq B hB t b ht hb, ?_⟩
  intro seq' hB' hlen t0 b0 hag t b hne
  by_cases hpos : t < seq.length ∧ b < B
  · rw [seqMLPForward_entry ops ls seq B hB t b hpos.1 hpos.2,
      seqMLPForward_entry ops ls seq' B hB' t b (by omega) hpos.2,
      hag t b hne]
  · rw [seqMLPForward_entry_default ops ls seq B hB t b hpos,
      seqMLPForward_entry_default ops ls seq' B hB' t b (by omega)]

/-- Witness for C4 at a concrete input. -/
theorem C4_nnSeqBnMLP_pointwise_witness :
    (∀ m ∈ ([[[(1 : ℚ)]]] : T3), m.length = 1) ∧
      seqMLPForward idOps [] [[[(1 : ℚ)]]]
        = ([[[(1 : ℚ)]]] : T3).map (fun m => m.map (applyMLP idOps [])) :=
  ⟨by decide, (C4_nnSeqBnMLP_pointwise idOps [] [[[(1 : ℚ)]]] 1 (by decide)).1⟩

/-- C2: `RnnRegNet.forward` runs the two independent recurrent branches (LSTM
and GRU, each followed by its own normalization+MLP block) on the projected
input, concatenates the branch outputs along the feature axis (`dim 2`), passes
the result through the final normalization+MLP block, and returns the output
sequence together with the pair of updated hidden states of both branches,
`hid=None` being treated as the pair `(None, None)`. -/
theorem C2_rnnRegNet_forward_structure (ops : ScalarOps) (p : RnnRegNetP) (inp : T3)
    (hid : Option (LSTMHid × GRUHid)) :
    RnnRegNetForward ops p inp hid = RnnRegNetSpec ops p inp hid := by
  cases hid <;> rfl

/-- C7: the convolutional and transformer dual-branch networks carry no hidden
state: for every value of the `hid` argument both forwards return `None` as the
second component of their result, and the first component is the output
sequence `DilatedCNNRegNetOut` / `TransformerRegNetOut`, which does not mention
`hid` at all. -/
theorem C7_no_hidden_state (ops : ScalarOps) (pc : DilatedCNNRegNetP)
    (pt : TransformerRegNetP) (inp : T3) :
    ∀ (α : Type) (hid : Option α),
      DilatedCNNRegNetForward ops pc inp hid = (DilatedCNNRegNetOut ops pc inp, none) ∧
        TransformerRegNetForward ops pt inp hid = (TransformerRegNetOut ops pt inp, none) :=
  fun _ _ => ⟨rfl, rfl⟩

theorem getD_zipWith_of_lt {α β γ} (f : α → β → γ) (l1 : List α) (l2 : List β)
    (i : ℕ) (d1 : α) (d2 : β) (d3 : γ) (h1 : i < l1.length) (h2 : i < l2.length) :
    (List.zipWith f l1 l2).getD i d3 = f (l1.getD i d1) (l2.getD i d2) := by
  have hlen : i < (List.zipWith f l1 l2).length := by rw [List.length_zipWith]; omega
  rw [List.getD_eq_getElem _ _ hlen, List.getD_eq_getElem _ _ h1, List.getD_eq_getElem _ _ h2]
  exact List.getElem_zipWith

theorem getD_drop {α} (l : List α) (n i : ℕ) (d : α) :
    (l.drop n).getD i d = l.getD (n + i) d := by
  rw [List.getD_eq_getElem?_getD, List.getD_eq_getElem?_getD, List.getElem?_drop]

theorem length_zipWith_eq {α β γ} (f : α → β → γ) (l1 : List α) (l2 : List β) (n : ℕ)
    (h1 : l1.length = n) (h2 : l2.length = n) : (List.zipWith f l1 l2).length = n := by
  rw [List.length_zipWith]; omega

theorem forall_mem_zipWith {α β γ} {f : α → β → γ} {p : γ → Prop} :
    ∀ {l1 : List α} {l2 : List β}, (∀ x ∈ l1, ∀ y ∈ l2, p (f x y)) →
      ∀ z ∈ List.zipWith f l1 l2, p z
  | [], _, _ => by simp
  | _ :: _, [], _ => by simp
  | x :: xs, y :: ys, h => by
      intro z hz
      rcases List.mem_cons.mp hz with h1 | h2
      · exact h1 ▸ h x (by simp) y (by simp)
      · exact forall_mem_zipWith
          (fun a ha b hb => h a (by simp [ha]) b (by simp [hb])) z h2

theorem elemwise3_shape (f : ℚ → ℚ → ℚ) (a b : T3) (T B F : ℕ)
    (ha : isShape3 a T B F) (hb : isShape3 b T B F) :
    isShape3 (elemwise3 f a b) T B F := by
  refine ⟨length_zipWith_eq _ a b T ha.1 hb.1, ?_⟩
  apply forall_mem_zipWith
  intro m hm n hn
  refine ⟨length_zipWith_eq _ m n B (ha.2 m hm).1 (hb.2 n hn).1, ?_⟩
  apply forall_mem_zipWith
  intro v hv w hw
  exact length_zipWith_eq _ v w F ((ha.2 m hm).2 v hv) ((hb.2 n hn).2 w hw)

theorem elemwise3_entry (f : ℚ → ℚ → ℚ) (a b : T3) (T B F : ℕ)
    (ha : isShape3 a T B F) (hb : isShape3 b T B F) (t bi fi : ℕ)
    (ht : t < T) (hbi : bi < B) (hfi : fi < F) :
    entry3 (elemwise3 f a b) t bi fi = f (entry3 a t bi fi) (entry3 b t bi fi) := by
  unfold entry3 elemwise3
  have h1 : t < a.length := by rw [ha.1]; exact ht
  have h2 : t < b.length := by rw [hb.1]; exact ht
  rw [getD_zipWith_of_lt _ a b t [] [] [] h1 h2]
  have hma : a.getD t [] ∈ a := getD_mem_of_lt a t [] h1
  have hmb : b.getD t [] ∈ b := getD_mem_of_lt b t [] h2
  have h3 : bi < (a.getD t []).length := by rw [(ha.2 _ hma).1]; exact hbi
  have h4 : bi < (b.getD t []).length := by rw [(hb.2 _ hmb).1]; exact hbi
  rw [getD_zipWith_of_lt _ _ _ bi [] [] [] h3 h4]
  have hva : (a.getD t []).getD bi [] ∈ a.getD t [] := getD_mem_of_lt _ bi [] h3
  have hvb : (b.getD t []).getD bi [] ∈ b.getD t [] := getD_mem_of_lt _ bi [] h4
  have h5 : fi < ((a.getD t []).getD bi []).length := by
    rw [(ha.2 _ hma).2 _ hva]; exact hfi
  have h6 : fi < ((b.getD t []).getD bi []).length := by
    rw [(hb.2 _ hmb).2 _ hvb]; exact hfi
  rw [getD_zipWith_of_lt f _ _ fi 0 0 0 h5 h6]

/-- C9: for every network variant, `get_obj_value` applied to an elementwise
criterion, output and label tensors of shape `(T, B, F)` and a warm-up length
`wup` returns the elementwise criterion values with the first `wup` time steps
removed: the three static methods are the same function, the result has shape
`(T - wup, B, F)` (empty when `wup ≥ T`, as `T - wup` is truncated
subtraction), and its entry at `(t, b, f)` is the criterion applied at
`(t + wup, b, f)`. -/
theorem C9_getObjValue_warmup_slice (crit : ℚ → ℚ → ℚ) (out lab : T3) (wup T B F : ℕ)
    (hout : isShape3 out T B F) (hlab : isShape3 lab T B F) :
    (RnnRegNetGetObjValue crit out lab wup = DilatedCNNRegNetGetObjValue crit out lab wup ∧
        RnnRegNetGetObjValue crit out lab wup = TransformerRegNetGetObjValue crit out lab wup) ∧
      isShape3 (RnnRegNetGetObjValue crit out lab wup) (T - wup) B F ∧
      ∀ t b f, t < T - wup → b < B → f < F →
        entry3 (RnnRegNetGetObjValue crit out lab wup) t b f
          = crit (entry3 out (t + wup) b f) (entry3 lab (t + wup) b f) := by
  refine ⟨⟨rfl, rfl⟩, ?_, ?_⟩
  · have h := elemwise3_shape crit out lab T B F hout hlab
    exact ⟨by rw [RnnRegNetGetObjValue, List.length_drop, h.1],
      fun m hm => h.2 m (List.mem_of_mem_drop hm)⟩
  · intro t b f ht hb hf
    show entry3 ((elemwise3 crit out lab).drop wup) t b f = _
    unfold entry3
    rw [getD_drop]
    have := elemwise3_entry crit out lab T B F hout hlab (wup + t) b f (by omega) hb hf
    unfold entry3 at this
    rw [this, Nat.add_comm wup t]

/-- Witness for C9 at a concrete input. -/
theorem C9_getObjValue_warmup_slice_witness :
    isShape3 ([[[(1 : ℚ)]], [[(2 : ℚ)]]] : T3) 2 1 1 ∧
      isShape3 ([[[(0 : ℚ)]], [[(5 : ℚ)]]] : T3) 2 1 1 ∧
      isShape3 (RnnRegNetGetObjValue (fun a b => a - b)
        [[[(1 : ℚ)]], [[(2 : ℚ)]]] [[[(0 : ℚ)]], [[(5 : ℚ)]]] 1) (2 - 1) 1 1 :=
  ⟨by decide, by decide,
    (C9_getObjValue_warmup_slice (fun a b => a - b)
      [[[(1 : ℚ)]], [[(2 : ℚ)]]] [[[(0 : ℚ)]], [[(5 : ℚ)]]] 1 2 1 1
      (by decide) (by decide)).2.1⟩

/-- C10: `NnSeqBnMLP.forward` destructures `seq.shape` into exactly three
components, so it succeeds exactly on rank-3 tensors and fails (raises,
modelled as `none`) on tensors of any other rank; consequently every network
variant's forward — whose first step applies `mlp_inp` — fails on inputs of
any rank other than 3. -/
theorem C10_rank3_required (ops : ScalarOps) (ls : List LayerP) (p1 : RnnRegNetP)
    (p2 : DilatedCNNRegNetP) (p3 : TransformerRegNetP) (t : PyTensor)
    (hid1 : Option (LSTMHid × GRUHid)) {α β : Type} (hid2 : Option α) (hid3 : Option β) :
    ((seqMLPForwardChecked ops ls t).isSome ↔ t.shape.length = 3) ∧
      (t.shape.length ≠ 3 →
        seqMLPForwardChecked ops ls t = none ∧
          RnnRegNetForwardChecked ops p1 t hid1 = none ∧
          DilatedCNNRegNetForwardChecked ops p2 t hid2 = none ∧
          TransformerRegNetForwardChecked ops p3 t hid3 = none) := by
  obtain ⟨sh, data⟩ := t
  match sh with
  | [] => simp [seqMLPForwardChecked, RnnRegNetForwardChecked,
      DilatedCNNRegNetForwardChecked, TransformerRegNetForwardChecked]
  | [a] => simp [seqMLPForwardChecked, RnnRegNetForwardChecked,
      DilatedCNNRegNetForwardChecked, TransformerRegNetForwardChecked]
  | [a, b] => simp [seqMLPForwardChecked, RnnRegNetForwardChecked,
      DilatedCNNRegNetForwardChecked, TransformerRegNetForwardChecked]
  | [a, b, c] => simp [seqMLPForwardChecked, RnnRegNetForwardChecked,
      DilatedCNNRegNetForwardChecked, TransformerRegNetForwardChecked]
  | a :: b :: c :: d :: rest => simp [seqMLPForwardChecked, RnnRegNetForwardChecked,
      DilatedCNNRegNetForwardChecked, TransformerRegNetForwardChecked]

/-- Witness for C10 at a concrete rank-1 tensor. -/
theorem C10_rank3_required_witness :
    ([2] : List ℕ).length ≠ 3 ∧
      (seqMLPForwardChecked idOps [] ⟨[2], [1]⟩ = none ∧
        RnnRegNetForwardChecked idOps ⟨[], [], [], [], [], []⟩ ⟨[2], [1]⟩ none = none ∧
        DilatedCNNRegNetForwardChecked idOps ⟨[], [], [], [], [], []⟩ ⟨[2], [1]⟩
          (none : Option Unit) = none ∧
        TransformerRegNetForwardChecked idOps ⟨[], [], [], [], [], []⟩ ⟨[2], [1]⟩
          (none : Option Unit) = none) :=
  ⟨by decide,
    (C10_rank3_required idOps [] ⟨[], [], [], [], [], []⟩ ⟨[], [], [], [], [], []⟩
      ⟨[], [], [], [], [], []⟩ ⟨[2], [1]⟩ none (none : Option Unit)
      (none : Option Unit)).2 (by decide)⟩

theorem mlpKindsChain (ln : Bool) :
    ∀ (pre tl : List ℕ),
      (List.range' pre.length (tl.length - 1)).flatMap (fun i =>
          [LayerKind.geluK]
            ++ (if ln then [LayerKind.layerNormK ((pre ++ tl).getD i 0)] else [])
            ++ [LayerKind.linearK ((pre ++ tl).getD i 0) ((pre ++ tl).getD (i + 1) 0)])
        = specMLPChain ln tl
  | _, [] => by simp [specMLPChain]
  | _, [_] => by simp [specMLPChain]
  | pre, a :: b :: rest => by
      have hgetA : (pre ++ a :: b :: rest).getD pre.length 0 = a := by
        rw [List.getD_eq_getElem?_getD, List.getElem?_append_right (le_refl _)]
        simp
      have hgetB : (pre ++ a :: b :: rest).getD (pre.length + 1) 0 = b := by
        rw [List.getD_eq_getElem?_getD,
          List.getElem?_append_right (Nat.le_add_right _ _)]
        simp
      have hsplit : pre ++ a :: b :: rest = (pre ++ [a]) ++ (b :: rest) := by simp
      have hlen : (a :: b :: rest).length - 1 = rest.length + 1 := by simp
      rw [hlen, List.range'_succ, List.flatMap_cons, hgetA, hgetB, hsplit]
      have hpre : pre.length + 1 = (pre ++ [a]).length := by simp
      have hcount : rest.length = (b :: rest).length - 1 := by simp
      rw [hpre, hcount, mlpKindsChain ln (pre ++ [a]) (b :: rest)]
      simp [specMLPChain]

/-- C3: `NnSeqBnMLP.__init__` builds, for every dimension tuple with at least
two entries, exactly this module sequence in order: an input batch
normalization iff `if_inp_norm`; `Linear(dims[0], dims[1])`; then for each `i`
from `1` to `len(dims) - 2` a GELU, a layer normalization over `dims[i]` iff
`if_layer_norm`, and `Linear(dims[i], dims[i+1])`; and finally the supplied
output activation iff one is supplied — stated as equality with the structural
description `specMLPKinds` written from the specification. -/
theorem C3_mlp_layer_sequence (dims : List ℕ) (inpNorm lnorm hasAct : Bool)
    (h : 2 ≤ dims.length) :
    mkMLPKinds dims inpNorm lnorm hasAct = specMLPKinds dims inpNorm lnorm hasAct := by
  match dims, h with
  | d0 :: d1 :: rest, _ =>
      unfold mkMLPKinds specMLPKinds
      have hchain := mlpKindsChain lnorm [d0] (d1 :: rest)
      simp only [List.singleton_append, List.length_singleton] at hchain
      have hlen : (d0 :: d1 :: rest).length - 2 = (d1 :: rest).length - 1 := by simp
      rw [hlen]
      simp only [List.singleton_append, List.append_assoc]
      rw [hchain]
      simp

/-- Witness for C3 at a concrete dimension tuple. -/
theorem C3_mlp_layer_sequence_witness :
    2 ≤ ([3, 4, 5] : List ℕ).length ∧
      mkMLPKinds [3, 4, 5] false true true = specMLPKinds [3, 4, 5] false true true :=
  ⟨by decide, C3_mlp_layer_sequence [3, 4, 5] false true true (by decide)⟩

/-- C8: `TransformerRegNet.forward` follows the dual-branch fusion pattern of
the recurrent variant: the projected input is fed to two independent branches,
each a sequential stack of `num_layers` encoder blocks followed by its own
normalization+MLP block; the branch outputs are concatenated along the feature
axis (`dim 2`) and passed through the final normalization+MLP block to produce
the output sequence (no hidden state). -/
theorem C8_transformer_dual_branch_fusion (ops : ScalarOps) (p : TransformerRegNetP)
    (L : ℕ) (_h1 : p.blocks1.length = L) (_h2 : p.blocks2.length = L) :
    ∀ (α : Type) (hid : Option α) (inp : T3),
      TransformerRegNetForward ops p inp hid = (TransformerRegNetSpec ops p inp, none) :=
  fun _ _ _ => rfl

/-- Witness for C8 at a concrete network and input. -/
theorem C8_transformer_dual_branch_fusion_witness :
    (([] : List EncLayerP).length = 0 ∧ ([] : List EncLayerP).length = 0) ∧
      TransformerRegNetForward idOps ⟨[], [], [], [], [], []⟩ [[[(1 : ℚ)]]]
          (none : Option Unit)
        = (TransformerRegNetSpec idOps ⟨[], [], [], [], [], []⟩ [[[(1 : ℚ)]]], none) :=
  ⟨⟨rfl, rfl⟩,
    C8_transformer_dual_branch_fusion idOps ⟨[], [], [], [], [], []⟩ 0 rfl rfl
      Unit none [[[(1 : ℚ)]]]⟩

theorem zip3With_length_eq {α β γ δ} (f : α → β → γ → δ) :
    ∀ (l1 : List α) (l2 : List β) (l3 : List γ) (n : ℕ),
      l1.length = n → l2.length = n → l3.length = n → (zip3With f l1 l2 l3).length = n
  | [], _, _, _ => by
      intro h1 _ _
      simp only [List.length_nil] at h1
      simp [zip3With, h1]
  | _ :: _, [], _, _ => by
      intro h1 h2 _
      simp only [List.length_cons, List.length_nil] at h1 h2
      omega
  | _ :: _, _ :: _, [], _ => by
      intro h1 _ h3
      simp only [List.length_cons, List.length_nil] at h1 h3
      omega
  | a :: as_, b :: bs, c :: cs, n => by
      intro h1 h2 h3
      simp only [zip3With, List.length_cons] at h1 h2 h3 ⊢
      rw [zip3With_length_eq f as_ bs cs (n - 1) (by omega) (by omega) (by omega)]
      omega

theorem zip4With_length_eq {α β γ δ ε} (f : α → β → γ → δ → ε) :
    ∀ (l1 : List α) (l2 : List β) (l3 : List γ) (l4 : List δ) (n : ℕ),
      l1.length = n → l2.length = n → l3.length = n → l4.length = n →
        (zip4With f l1 l2 l3 l4).length = n
  | [], _, _, _, _ => by
      intro h1 _ _ _
      simp only [List.length_nil] at h1
      simp [zip4With, h1]
  | _ :: _, [], _, _, _ => by
      intro h1 h2 _ _
      simp only [List.length_cons, List.length_nil] at h1 h2
      omega
  | _ :: _, _ :: _, [], _, _ => by
      intro h1 _ h3 _
      simp only [List.length_cons, List.length_nil] at h1 h3
      omega
  | _ :: _, _ :: _, _ :: _, [], _ => by
      intro h1 _ _ h4
      simp only [List.length_cons, List.length_nil] at h1 h4
      omega
  | a :: as_, b :: bs, c :: cs, d :: ds, n => by
      intro h1 h2 h3 h4
      simp only [zip4With, List.length_cons] at h1 h2 h3 h4 ⊢
      rw [zip4With_length_eq f as_ bs cs ds (n - 1) (by omega) (by omega) (by omega) (by omega)]
      omega

theorem forall_mem_zip3With {α β γ δ} {f : α → β → γ → δ} {p : δ → Prop} :
    ∀ {l1 : List α} {l2 : List β} {l3 : List γ},
      (∀ x ∈ l1, ∀ y ∈ l2, ∀ z ∈ l3, p (f x y z)) → ∀ w ∈ zip3With f l1 l2 l3, p w
  | [], _, _, _ => by simp [zip3With]
  | _ :: _, [], _, _ => by simp [zip3With]
  | _ :: _, _ :: _, [], _ => by simp [zip3With]
  | x :: xs, y :: ys, z :: zs, h => by
      intro w hw
      rcases List.mem_cons.mp hw with h1 | h2
      · exact h1 ▸ h x (by simp) y (by simp) z (by simp)
      · exact forall_mem_zip3With
          (fun a ha b hb c hc => h a (by simp [ha]) b (by simp [hb]) c (by simp [hc])) w h2

theorem forall_mem_zip4With {α β γ δ ε} {f : α → β → γ → δ → ε} {p : ε → Prop} :
    ∀ {l1 : List α} {l2 : List β} {l3 : List γ} {l4 : List δ},
      (∀ x ∈ l1, ∀ y ∈ l2, ∀ z ∈ l3, ∀ u ∈ l4, p (f x y z u)) →
        ∀ w ∈ zip4With f l1 l2 l3 l4, p w
  | [], _, _, _, _ => by simp [zip4With]
  | _ :: _, [], _, _, _ => by simp [zip4With]
  | _ :: _, _ :: _, [], _, _ => by simp [zip4With]
  | _ :: _, _ :: _, _ :: _, [], _ => by simp [zip4With]
  | x :: xs, y :: ys, z :: zs, u :: us, h => by
      intro w hw
      rcases List.mem_cons.mp hw with h1 | h2
      · exact h1 ▸ h x (by simp) y (by simp) z (by simp) u (by simp)
      · exact forall_mem_zip4With
          (fun a ha b hb c hc d hd =>
            h a (by simp [ha]) b (by simp [hb]) c (by simp [hc]) d (by simp [hd])) w h2

theorem linearRow_length (w : Mat) (b : Vec) (x : Vec) (h : b.length = w.length) :
    (linearRow w b x).length = w.length := by
  unfold linearRow vadd matvec
  rw [List.length_zipWith, List.length_map]
  omega

theorem applyLayer_length (ops : ScalarOps) (l : LayerP) (x : Vec) (n : ℕ)
    (hwf : layerWf l n) (hx : x.length = n) :
    (applyLayer ops l x).length = layerOutDim l n := by
  cases l with
  | batchNorm1d g b m v =>
      exact zip4With_length_eq _ g b m (v.zip x) n hwf.1 hwf.2.1 hwf.2.2.1
        (by rw [List.length_zip, hwf.2.2.2, hx]; omega)
  | linear w b => exact linearRow_length w b x hwf
  | geluLayer => simpa [applyLayer] using hx
  | layerNorm g b =>
      exact zip3With_length_eq _ g b x n hwf.1 hwf.2 hx
  | tanhLayer => simpa [applyLayer] using hx

theorem applyMLP_length (ops : ScalarOps) :
    ∀ (ls : List LayerP) (x : Vec) (n : ℕ), mlpWf ls n → x.length = n →
      (applyMLP ops ls x).length = mlpOutDim ls n
  | [], _x, _n, _, hx => hx
  | l :: ls, x, n, hwf, hx =>
      applyMLP_length ops ls (applyLayer ops l x) (layerOutDim l n) hwf.2
        (applyLayer_length ops l x n hwf.1 hx)

theorem seqMLPForward_shape (ops : ScalarOps) (ls : List LayerP) (seq : T3)
    (T B F : ℕ) (h : isShape3 seq T B F) (hwf : mlpWf ls F) :
    isShape3 (seqMLPForward ops ls seq) T B (mlpOutDim ls F) := by
  rw [seqMLPForward_eq_map ops ls seq B (fun m hm => (h.2 m hm).1)]
  refine ⟨by rw [List.length_map, h.1], ?_⟩
  intro m hm
  obtain ⟨m0, hm0, rfl⟩ := List.mem_map.mp hm
  refine ⟨by rw [List.length_map, (h.2 m0 hm0).1], ?_⟩
  intro v hv
  obtain ⟨v0, hv0, rfl⟩ := List.mem_map.mp hv
  exact applyMLP_length ops ls v0 F hwf ((h.2 m0 hm0).2 v0 hv0)

theorem zeroMat_wf (B H : ℕ) : matWf (zeroMat B H) B H :=
  ⟨List.length_replicate .., fun v hv => by
    rw [(List.eq_of_mem_replicate hv : v = zeros H)]
    exact List.length_replicate ..⟩

theorem lstmCellRow_length (ops : ScalarOps) (p : LSTMLayer) (h c x : Vec)
    (hwf : lstmLayerWf p) (hc : c.length = p.hiddenSize) :
    (lstmCellRow ops p h c x).1.length = p.hiddenSize ∧
      (lstmCellRow ops p h c x).2.length = p.hiddenSize := by
  obtain ⟨h1, h2, h3, h4⟩ := hwf
  constructor <;>
    simp [lstmCellRow, vadd, vmul, matvec, List.length_zipWith, h1, h2, h3, h4, hc] <;>
    omega

theorem lstmCellBatch_shape (ops : ScalarOps) (p : LSTMLayer) (st : Mat × Mat) (x : Mat)
    (B : ℕ) (hwf : lstmLayerWf p) (hst : lstmStateWf st B p.hiddenSize)
    (hx : x.length = B) :
    matWf (lstmCellBatch ops p st x).1 B p.hiddenSize ∧
      lstmStateWf (lstmCellBatch ops p st x).2 B p.hiddenSize := by
  have hrows : ∀ r ∈ zip3With (fun h c xr => lstmCellRow ops p h c xr) st.1 st.2 x,
      r.1.length = p.hiddenSize ∧ r.2.length = p.hiddenSize := by
    apply forall_mem_zip3With
    intro a _ c hcm xr _
    exact lstmCellRow_length ops p a c xr ⟨hwf.1, hwf.2.1, hwf.2.2.1, hwf.2.2.2⟩
      (hst.2.2 c hcm)
  have hlen : (zip3With (fun h c xr => lstmCellRow ops p h c xr) st.1 st.2 x).length = B :=
    zip3With_length_eq _ st.1 st.2 x B hst.1.1 hst.2.1 hx
  have hfst : matWf ((zip3With (fun h c xr => lstmCellRow ops p h c xr)
      st.1 st.2 x).map Prod.fst) B p.hiddenSize := by
    refine ⟨by rw [List.length_map, hlen], ?_⟩
    intro v hv
    obtain ⟨r, hr, rfl⟩ := List.mem_map.mp hv
    exact (hrows r hr).1
  have hsnd : matWf ((zip3With (fun h c xr => lstmCellRow ops p h c xr)
      st.1 st.2 x).map Prod.snd) B p.hiddenSize := by
    refine ⟨by rw [List.length_map, hlen], ?_⟩
    intro v hv
    obtain ⟨r, hr, rfl⟩ := List.mem_map.mp hv
    exact (hrows r hr).2
  exact ⟨hfst, hfst, hsnd⟩

theorem lstmLayerSeq_shape (ops : ScalarOps) (p : LSTMLayer) (hwf : lstmLayerWf p) :
    ∀ (xs : List Mat) (st : Mat × Mat) (B : ℕ), lstmStateWf st B p.hiddenSize →
      (∀ x ∈ xs, x.length = B) →
      (∀ m ∈ (rnnSeq (lstmCellBatch ops p) st xs).1, matWf m B p.hiddenSize) ∧
        (rnnSeq (lstmCellBatch ops p) st xs).1.length = xs.length ∧
        lstmStateWf (rnnSeq (lstmCellBatch ops p) st xs).2 B p.hiddenSize
  | [], st, B, hst, _ => ⟨by simp [rnnSeq], by simp [rnnSeq], by simpa [rnnSeq] using hst⟩
  | x :: xs, st, B, hst, hxs => by
      have hcell := lstmCellBatch_shape ops p st x B hwf hst (hxs x (by simp))
      have hrest := lstmLayerSeq_shape ops p hwf xs (lstmCellBatch ops p st x).2 B hcell.2
        (fun m hm => hxs m (by simp [hm]))
      refine ⟨?_, by simpa [rnnSeq] using hrest.2.1, by simpa [rnnSeq] using hrest.2.2⟩
      intro m hm
      simp only [rnnSeq] at hm
      rcases List.mem_cons.mp hm with h1 | h2
      · exact h1 ▸ hcell.1
      · exact hrest.1 m h2

theorem lstmStack_nil (ops : ScalarOps) :
    ∀ (ps : List LSTMLayer) (sts : List (Mat × Mat)), (lstmStack ops ps sts []).1 = []
  | [], _ => rfl
  | p :: ps, sts => by
      show (lstmStack ops ps sts.tail (rnnSeq (lstmCellBatch ops p)
        (sts.headD ([], [])) []).1).1 = []
      rw [show (rnnSeq (lstmCellBatch ops p) (sts.headD ([], [])) []).1 = [] from rfl]
      exact lstmStack_nil ops ps sts.tail

theorem lstmStack_shape (ops : ScalarOps) :
    ∀ (ps : List LSTMLayer) (sts : List (Mat × Mat)) (xs : List Mat) (T B mid : ℕ),
      (∀ p ∈ ps, lstmLayerWf p ∧ p.hiddenSize = mid) → lstmStWf ps sts B →
      isShape3 xs T B mid → isShape3 (lstmStack ops ps sts xs).1 T B mid
  | [], _, xs, T, B, mid, _, _, hxs => hxs
  | p :: ps, sts, xs, T, B, mid, hps, hst, hxs => by
      have hp := hps p (by simp)
      have hseq := lstmLayerSeq_shape ops p hp.1 xs (sts.headD ([], [])) B hst.1
        (fun x hx => (hxs.2 x hx).1)
      have hmid : isShape3 (rnnSeq (lstmCellBatch ops p) (sts.headD ([], [])) xs).1
          T B mid := by
        refine ⟨by rw [hseq.2.1, hxs.1], ?_⟩
        intro m hm
        exact ⟨(hseq.1 m hm).1, fun v hv => by rw [(hseq.1 m hm).2 v hv, hp.2]⟩
      exact lstmStack_shape ops ps sts.tail _ T B mid
        (fun q hq => hps q (by simp [hq])) hst.2 hmid

theorem lstmStWf_init (B : ℕ) :
    ∀ ps : List LSTMLayer,
      lstmStWf ps (ps.map (fun p => (zeroMat B p.hiddenSize, zeroMat B p.hiddenSize))) B
  | [] => trivial
  | p :: ps => ⟨⟨zeroMat_wf B p.hiddenSize, zeroMat_wf B p.hiddenSize⟩, lstmStWf_init B ps⟩

theorem lstmForward_shape (ops : ScalarOps) (ps : List LSTMLayer) (xs : List Mat)
    (T B mid : ℕ) (hps : ∀ p ∈ ps, lstmLayerWf p ∧ p.hiddenSize = mid)
    (hxs : isShape3 xs T B mid) :
    isShape3 (lstmForward ops ps xs none).1 T B mid := by
  cases xs with
  | nil =>
      show isShape3 (lstmStack ops ps _ []).1 T B mid
      rw [lstmStack_nil ops ps]
      exact ⟨hxs.1, by simp⟩
  | cons x xs' =>
      show isShape3 (lstmStack ops ps _ (x :: xs')).1 T B mid
      have hB : ((x :: xs').getD 0 []).length = B := ((hxs.2 x (by simp)).1 : x.length = B)
      rw [hB]
      exact lstmStack_shape ops ps _ (x :: xs') T B mid hps (lstmStWf_init B ps) hxs

theorem gruCellRow_length (ops : ScalarOps) (p : GRULayer) (h x : Vec)
    (hwf : gruLayerWf p) (hh : h.length = p.hiddenSize) :
    (gruCellRow ops p h x).length = p.hiddenSize := by
  obtain ⟨h1, h2, h3, h4⟩ := hwf
  simp [gruCellRow, vadd, vmul, matvec, List.length_zipWith, zip3With_length_eq,
    h1, h2, h3, h4, hh]
  rw [zip3With_length_eq _ _ _ _ p.hiddenSize] <;>
    simp [vadd, vmul, matvec, List.length_zipWith, h1, h2, h3, h4, hh] <;> omega

theorem gruCellBatch_shape (ops : ScalarOps) (p : GRULayer) (st : Mat) (x : Mat)
    (B : ℕ) (hwf : gruLayerWf p) (hst : matWf st B p.hiddenSize) (hx : x.length = B) :
    matWf (gruCellBatch ops p st x).1 B p.hiddenSize ∧
      matWf (gruCellBatch ops p st x).2 B p.hiddenSize := by
  have hrows : matWf (List.zipWith (fun h xr => gruCellRow ops p h xr) st x)
      B p.hiddenSize := by
    refine ⟨length_zipWith_eq _ st x B hst.1 hx, ?_⟩
    apply forall_mem_zipWith
    intro a ha xr _
    exact gruCellRow_length ops p a xr ⟨hwf.1, hwf.2.1, hwf.2.2.1, hwf.2.2.2⟩
      (hst.2 a ha)
  exact ⟨hrows, hrows⟩

theorem gruLayerSeq_shape (ops : ScalarOps) (p : GRULayer) (hwf : gruLayerWf p) :
    ∀ (xs : List Mat) (st : Mat) (B : ℕ), matWf st B p.hiddenSize →
      (∀ x ∈ xs, x.length = B) →
      (∀ m ∈ (rnnSeq (gruCellBatch ops p) st xs).1, matWf m B p.hiddenSize) ∧
        (rnnSeq (gruCellBatch ops p) st xs).1.length = xs.length ∧
        matWf (rnnSeq (gruCellBatch ops p) st xs).2 B p.hiddenSize
  | [], st, B, hst, _ => ⟨by simp [rnnSeq], by simp [rnnSeq], by simpa [rnnSeq] using hst⟩
  | x :: xs, st, B, hst, hxs => by
      have hcell := gruCellBatch_shape ops p st x B hwf hst (hxs x (by simp))
      have hrest := gruLayerSeq_shape ops p hwf xs (gruCellBatch ops p st x).2 B hcell.2
        (fun m hm => hxs m (by simp [hm]))
      refine ⟨?_, by simpa [rnnSeq] using hrest.2.1, by simpa [rnnSeq] using hrest.2.2⟩
      intro m hm
      simp only [rnnSeq] at hm
      rcases List.mem_cons.mp hm with h1 | h2
      · exact h1 ▸ hcell.1
      · exact hrest.1 m h2

theorem gruStack_nil (ops : ScalarOps) :
    ∀ (ps : List GRULayer) (sts : List Mat), (gruStack ops ps sts []).1 = []
  | [], _ => rfl
  | p :: ps, sts => by
      show (gruStack ops ps sts.tail (rnnSeq (gruCellBatch ops p) (sts.headD []) []).1).1 = []
      rw [show (rnnSeq (gruCellBatch ops p) (sts.headD []) []).1 = [] from rfl]
      exact gruStack_nil ops ps sts.tail

theorem gruStack_shape (ops : ScalarOps) :
    ∀ (ps : List GRULayer) (sts : List Mat) (xs : List Mat) (T B mid : ℕ),
      (∀ p ∈ ps, gruLayerWf p ∧ p.hiddenSize = mid) → gruStWf ps sts B →
      isShape3 xs T B mid → isShape3 (gruStack ops ps sts xs).1 T B mid
  | [], _, xs, T, B, mid, _, _, hxs => hxs
  | p :: ps, sts, xs, T, B, mid, hps, hst, hxs => by
      have hp := hps p (by simp)
      have hseq := gruLayerSeq_shape ops p hp.1 xs (sts.headD []) B hst.1
        (fun x hx => (hxs.2 x hx).1)
      have hmid : isShape3 (rnnSeq (gruCellBatch ops p) (sts.headD []) xs).1 T B mid := by
        refine ⟨by rw [hseq.2.1, hxs.1], ?_⟩
        intro m hm
        exact ⟨(hseq.1 m hm).1, fun v hv => by rw [(hseq.1 m hm).2 v hv, hp.2]⟩
      exact gruStack_shape ops ps sts.tail _ T B mid
        (fun q hq => hps q (by simp [hq])) hst.2 hmid

theorem gruStWf_init (B : ℕ) :
    ∀ ps : List GRULayer, gruStWf ps (ps.map (fun p => zeroMat B p.hiddenSize)) B
  | [] => trivial
  | p :: ps => ⟨zeroMat_wf B p.hiddenSize, gruStWf_init B ps⟩

theorem gruForward_shape (ops : ScalarOps) (ps : List GRULayer) (xs : List Mat)
    (T B mid : ℕ) (hps : ∀ p ∈ ps, gruLayerWf p ∧ p.hiddenSize = mid)
    (hxs : isShape3 xs T B mid) :
    isShape3 (gruForward ops ps xs none).1 T B mid := by
  cases xs with
  | nil =>
      show isShape3 (gruStack ops ps _ []).1 T B mid
      rw [gruStack_nil ops ps]
      exact ⟨hxs.1, by simp⟩
  | cons x xs' =>
      show isShape3 (gruStack ops ps _ (x :: xs')).1 T B mid
      have hB : ((x :: xs').getD 0 []).length = B := ((hxs.2 x (by simp)).1 : x.length = B)
      rw [hB]
      exact gruStack_shape ops ps _ (x :: xs') T B mid hps (gruStWf_init B ps) hxs

theorem concatDim2_shape (a b : T3) (T B F1 F2 : ℕ)
    (ha : isShape3 a T B F1) (hb : isShape3 b T B F2) :
    isShape3 (concatDim2 a b) T B (F1 + F2) := by
  refine ⟨length_zipWith_eq _ a b T ha.1 hb.1, ?_⟩
  apply forall_mem_zipWith
  intro m hm n hn
  refine ⟨length_zipWith_eq _ m n B (ha.2 m hm).1 (hb.2 n hn).1, ?_⟩
  apply forall_mem_zipWith
  intro v hv w hw
  rw [List.length_append, (ha.2 m hm).2 v hv, (hb.2 n hn).2 w hw]

theorem RnnRegNetForward_shape (ops : ScalarOps) (p : RnnRegNetP) (inp : T3)
    (T B inpD mid outD : ℕ) (hwf : RnnRegNetWf p inpD mid outD)
    (hin : isShape3 inp T B inpD) :
    isShape3 (RnnRegNetForward ops p inp none).1 T B outD := by
  obtain ⟨⟨hinp, hinpD⟩, hr1, ⟨hm1, hm1D⟩, hr2, ⟨hm2, hm2D⟩, hout, houtD⟩ := hwf
  show isShape3 (seqMLPForward ops p.mlp_out (concatDim2
    (seqMLPForward ops p.mlp1
      (lstmForward ops p.rnn1 (seqMLPForward ops p.mlp_inp inp) none).1)
    (seqMLPForward ops p.mlp2
      (gruForward ops p.rnn2 (seqMLPForward ops p.mlp_inp inp) none).1))) T B outD
  have hx : isShape3 (seqMLPForward ops p.mlp_inp inp) T B mid := by
    have := seqMLPForward_shape ops p.mlp_inp inp T B inpD hin hinp
    rwa [hinpD] at this
  have h1 := lstmForward_shape ops p.rnn1 _ T B mid hr1 hx
  have h2 := gruForward_shape ops p.rnn2 _ T B mid hr2 hx
  have htmp1 : isShape3 (seqMLPForward ops p.mlp1
      (lstmForward ops p.rnn1 (seqMLPForward ops p.mlp_inp inp) none).1) T B mid := by
    have := seqMLPForward_shape ops p.mlp1 _ T B mid h1 hm1
    rwa [hm1D] at this
  have htmp2 : isShape3 (seqMLPForward ops p.mlp2
      (gruForward ops p.rnn2 (seqMLPForward ops p.mlp_inp inp) none).1) T B mid := by
    have := seqMLPForward_shape ops p.mlp2 _ T B mid h2 hm2
    rwa [hm2D] at this
  have hcat := concatDim2_shape _ _ T B mid mid htmp1 htmp2
  have := seqMLPForward_shape ops p.mlp_out _ T B (mid + mid) hcat hout
  rwa [houtD] at this

theorem forall_mem_range_map {α} {g : ℕ → α} {p : α → Prop} {n : ℕ}
    (h : ∀ i < n, p (g i)) : ∀ z ∈ (List.range n).map g, p z := by
  intro z hz
  obtain ⟨i, hi, rfl⟩ := List.mem_map.mp hz
  exact h i (List.mem_range.mp hi)

theorem permute120_shape (x : T3) (T B M : ℕ) (h : isShape3 x T B M)
    (hT : 0 < T) (hB : 0 < B) : isShape3 (permute120 x) B M T := by
  have hTx : x.length = T := h.1
  have hhead : x.getD 0 [] ∈ x := getD_mem_of_lt x 0 [] (by omega)
  have hBx : (x.getD 0 []).length = B := (h.2 _ hhead).1
  have hMx : ((x.getD 0 []).getD 0 []).length = M :=
    (h.2 _ hhead).2 _ (getD_mem_of_lt _ 0 [] (by rw [hBx]; omega))
  simp only [permute120]
  rw [hTx, hBx, hMx]
  refine ⟨by simp, ?_⟩
  apply forall_mem_range_map
  intro b _
  refine ⟨by simp, ?_⟩
  apply forall_mem_range_map
  intro m _
  simp

theorem permute201_shape (y : T3) (B M T : ℕ) (h : isShape3 y B M T)
    (hB : 0 < B) (hM : 0 < M) : isShape3 (permute201 y) T B M := by
  have hBy : y.length = B := h.1
  have hhead : y.getD 0 [] ∈ y := getD_mem_of_lt y 0 [] (by omega)
  have hMy : (y.getD 0 []).length = M := (h.2 _ hhead).1
  have hTy : ((y.getD 0 []).getD 0 []).length = T :=
    (h.2 _ hhead).2 _ (getD_mem_of_lt _ 0 [] (by rw [hMy]; omega))
  simp only [permute201]
  rw [hBy, hMy, hTy]
  refine ⟨by simp, ?_⟩
  apply forall_mem_range_map
  intro t _
  refine ⟨by simp, ?_⟩
  apply forall_mem_range_map
  intro b _
  simp

theorem conv1dSame_shape (c : ConvLayer) (x : Mat) (M T : ℕ) (hx : matWf x M T)
    (hM : 0 < M) (hb : c.b.length = c.w.length) :
    matWf (conv1dSame c x) c.w.length T := by
  have hT : (x.getD 0 []).length = T :=
    hx.2 _ (getD_mem_of_lt x 0 [] (by rw [hx.1]; omega))
  simp only [conv1dSame]
  rw [hT]
  refine ⟨length_zipWith_eq _ c.w c.b c.w.length rfl hb, ?_⟩
  apply forall_mem_zipWith
  intro wc _ bo _
  rw [List.length_map, List.length_range]

theorem dilatedCNNForward_shape (ops : ScalarOps) (l : DilatedCNNLayer) (x : Mat)
    (M T : ℕ) (hx : matWf x M T) (hwf : dilatedLayerWf l M) (hM : 0 < M) :
    matWf (dilatedCNNForward ops l x) M T := by
  obtain ⟨hw, hbc, hg, hbb, hm, hv⟩ := hwf
  have hconv : matWf (conv1dSame l.conv x) M T := by
    have := conv1dSame_shape l.conv x M T hx hM (by rw [hbc, hw])
    rwa [hw] at this
  simp only [dilatedCNNForward]
  refine ⟨zip4With_length_eq _ l.g l.b l.m (l.v.zip (conv1dSame l.conv x)) M hg hbb hm
    (by rw [List.length_zip, hv, hconv.1]; omega), ?_⟩
  apply forall_mem_zip4With
  intro gi _ bi _ mi _ pr hpr
  have hrow : pr.2 ∈ conv1dSame l.conv x := by
    obtain ⟨a, b, hab⟩ : ∃ a b, pr = (a, b) := ⟨pr.1, pr.2, rfl⟩
    subst hab
    exact (List.of_mem_zip hpr).2
  simp only [bnReluChannel, List.length_map]
  exact hconv.2 _ hrow

theorem dilatedBranch_shape (ops : ScalarOps) :
    ∀ (ls : List DilatedCNNLayer) (x : Mat) (M T : ℕ),
      (∀ l ∈ ls, dilatedLayerWf l M) → matWf x M T → 0 < M →
      matWf (ls.foldl (fun acc l => dilatedCNNForward ops l acc) x) M T
  | [], _, _, _, _, hx, _ => hx
  | l :: ls, x, M, T, hls, hx, hM =>
      dilatedBranch_shape ops ls (dilatedCNNForward ops l x) M T
        (fun q hq => hls q (by simp [hq]))
        (dilatedCNNForward_shape ops l x M T hx (hls l (by simp)) hM) hM

theorem DilatedCNNRegNetOut_shape (ops : ScalarOps) (p : DilatedCNNRegNetP) (inp : T3)
    (T B inpD mid outD : ℕ) (hwf : DilatedCNNRegNetWf p inpD mid outD)
    (hin : isShape3 inp T B inpD) (hT : 0 < T) (hB : 0 < B) (hmid : 0 < mid) :
    isShape3 (DilatedCNNRegNetOut ops p inp) T B outD := by
  obtain ⟨⟨hinp, hinpD⟩, hb1, ⟨hm1, hm1D⟩, hb2, ⟨hm2, hm2D⟩, hout, houtD⟩ := hwf
  show isShape3 (seqMLPForward ops p.mlp_out (concatDim2
    (seqMLPForward ops p.mlp1 (permute201
      ((permute120 (seqMLPForward ops p.mlp_inp inp)).map
        (fun chans => p.branch1.foldl (fun acc l => dilatedCNNForward ops l acc) chans))))
    (seqMLPForward ops p.mlp2 (permute201
      ((permute120 (seqMLPForward ops p.mlp_inp inp)).map
        (fun chans => p.branch2.foldl (fun acc l => dilatedCNNForward ops l acc) chans))))))
    T B outD
  have hx : isShape3 (seqMLPForward ops p.mlp_inp inp) T B mid := by
    have := seqMLPForward_shape ops p.mlp_inp inp T B inpD hin hinp
    rwa [hinpD] at this
  have hperm := permute120_shape _ T B mid hx hT hB
  have hbr : ∀ (br : List DilatedCNNLayer), (∀ l ∈ br, dilatedLayerWf l mid) →
      isShape3 ((permute120 (seqMLPForward ops p.mlp_inp inp)).map
        (fun chans => br.foldl (fun acc l => dilatedCNNForward ops l acc) chans))
        B mid T := by
    intro br hbrwf
    refine ⟨by rw [List.length_map, hperm.1], ?_⟩
    intro m hm
    obtain ⟨m0, hm0, rfl⟩ := List.mem_map.mp hm
    exact dilatedBranch_shape ops br m0 mid T hbrwf
      ⟨(hperm.2 m0 hm0).1, (hperm.2 m0 hm0).2⟩ hmid
  have htmp1 : isShape3 (seqMLPForward ops p.mlp1 (permute201
      ((permute120 (seqMLPForward ops p.mlp_inp inp)).map
        (fun chans => p.branch1.foldl (fun acc l => dilatedCNNForward ops l acc) chans))))
      T B mid := by
    have := seqMLPForward_shape ops p.mlp1 _ T B mid
      (permute201_shape _ B mid T (hbr p.branch1 hb1) hB hmid) hm1
    rwa [hm1D] at this
  have htmp2 : isShape3 (seqMLPForward ops p.mlp2 (permute201
      ((permute120 (seqMLPForward ops p.mlp_inp inp)).map
        (fun chans => p.branch2.foldl (fun acc l => dilatedCNNForward ops l acc) chans))))
      T B mid := by
    have := seqMLPForward_shape ops p.mlp2 _ T B mid
      (permute201_shape _ B mid T (hbr p.branch2 hb2) hB hmid) hm2
    rwa [hm2D] at this
  have hcat := concatDim2_shape _ _ T B mid mid htmp1 htmp2
  have := seqMLPForward_shape ops p.mlp_out _ T B (mid + mid) hcat hout
  rwa [houtD] at this

theorem attnSeq_shape (ops : ScalarOps) (p : MHAP) (xs : List Vec) (E : ℕ)
    (hwo : p.wo.length = E) (hbo : p.bo.length = E) :
    (attnSeq ops p xs).length = xs.length ∧ ∀ v ∈ attnSeq ops p xs, v.length = E := by
  simp only [attnSeq]
  refine ⟨by simp, ?_⟩
  apply forall_mem_range_map
  intro t _
  rw [linearRow_length _ _ _ (by rw [hbo, hwo]), hwo]

theorem mhaForward_shape (ops : ScalarOps) (p : MHAP) (x : T3) (T B E : ℕ)
    (hx : isShape3 x T B E) (hT : 0 < T)
    (hwo : p.wo.length = E) (hbo : p.bo.length = E) :
    isShape3 (mhaForward ops p x) T B E := by
  have hTx : x.length = T := hx.1
  have hBx : (x.getD 0 []).length = B :=
    (hx.2 _ (getD_mem_of_lt x 0 [] (by omega))).1
  simp only [mhaForward]
  rw [hTx, hBx]
  refine ⟨by simp, ?_⟩
  apply forall_mem_range_map
  intro t ht
  refine ⟨by simp, ?_⟩
  intro v hv
  obtain ⟨c, hc, rfl⟩ := List.mem_map.mp hv
  obtain ⟨b, hb, rfl⟩ := List.mem_map.mp hc
  have hattn := attnSeq_shape ops p (column b x) E hwo hbo
  refine hattn.2 _ (getD_mem_of_lt _ t [] ?_)
  rw [hattn.1]
  simp only [column, List.length_map]
  omega

theorem addT3_shape (a b : T3) (T B F : ℕ) (ha : isShape3 a T B F)
    (hb : isShape3 b T B F) : isShape3 (addT3 a b) T B F := by
  refine ⟨length_zipWith_eq _ a b T ha.1 hb.1, ?_⟩
  apply forall_mem_zipWith
  intro m hm n hn
  refine ⟨length_zipWith_eq _ m n B (ha.2 m hm).1 (hb.2 n hn).1, ?_⟩
  apply forall_mem_zipWith
  intro v hv w hw
  unfold vadd
  rw [List.length_zipWith, (ha.2 m hm).2 v hv, (hb.2 n hn).2 w hw]
  omega

theorem map2T3_shape (f : Vec → Vec) (x : T3) (T B F G : ℕ)
    (hf : ∀ v : Vec, v.length = F → (f v).length = G) (hx : isShape3 x T B F) :
    isShape3 (map2T3 f x) T B G := by
  refine ⟨by rw [map2T3, List.length_map, hx.1], ?_⟩
  intro m hm
  obtain ⟨m0, hm0, rfl⟩ := List.mem_map.mp hm
  refine ⟨by rw [List.length_map, (hx.2 m0 hm0).1], ?_⟩
  intro v hv
  obtain ⟨v0, hv0, rfl⟩ := List.mem_map.mp hv
  exact hf v0 ((hx.2 m0 hm0).2 v0 hv0)

theorem encLayerForward_shape (ops : ScalarOps) (l : EncLayerP) (x : T3) (T B E : ℕ)
    (hx : isShape3 x T B E) (hwf : encLayerWf l E) (hT : 0 < T) :
    isShape3 (encLayerForward ops l x) T B E := by
  obtain ⟨hwo, hbo, hl2w, hl2b, h1g, h1b, h2g, h2b⟩ := hwf
  have hmha := mhaForward_shape ops l.attn x T B E hx hT hwo hbo
  have hx1 : isShape3 (map2T3 (layerNormRow ops l.ln1_g l.ln1_b)
      (addT3 x (mhaForward ops l.attn x))) T B E := by
    refine map2T3_shape _ _ T B E E ?_ (addT3_shape x _ T B E hx hmha)
    intro v hv
    exact zip3With_length_eq _ l.ln1_g l.ln1_b v E h1g h1b hv
  show isShape3 (map2T3 (layerNormRow ops l.ln2_g l.ln2_b) (addT3 _ (map2T3 _ _))) T B E
  refine map2T3_shape _ _ T B E E ?_ (addT3_shape _ _ T B E hx1 ?_)
  · intro v hv
    exact zip3With_length_eq _ l.ln2_g l.ln2_b v E h2g h2b hv
  · refine map2T3_shape _ _ T B E E ?_ hx1
    intro v _
    rw [linearRow_length _ _ _ (by rw [hl2b, hl2w]), hl2w]

theorem encBlocks_shape (ops : ScalarOps) :
    ∀ (blocks : List EncLayerP) (x : T3) (T B E : ℕ),
      (∀ l ∈ blocks, encLayerWf l E) → isShape3 x T B E → 0 < T →
      isShape3 (blocks.foldl (fun a l => encLayerForward ops l a) x) T B E
  | [], _, _, _, _, _, hx, _ => hx
  | l :: ls, x, T, B, E, hls, hx, hT =>
      encBlocks_shape ops ls (encLayerForward ops l x) T B E
        (fun q hq => hls q (by simp [hq]))
        (encLayerForward_shape ops l x T B E hx (hls l (by simp)) hT) hT

theorem TransformerRegNetOut_shape (ops : ScalarOps) (p : TransformerRegNetP) (inp : T3)
    (T B inpD mid outD : ℕ) (hwf : TransformerRegNetWf p inpD mid outD)
    (hin : isShape3 inp T B inpD) (hT : 0 < T) :
    isShape3 (TransformerRegNetOut ops p inp) T B outD := by
  obtain ⟨⟨hinp, hinpD⟩, hb1, ⟨hm1, hm1D⟩, hb2, ⟨hm2, hm2D⟩, hout, houtD⟩ := hwf
  show isShape3 (seqMLPForward ops p.mlp_out (concatDim2
    (seqMLPForward ops p.mlp1
      (p.blocks1.foldl (fun a l => encLayerForward ops l a)
        (seqMLPForward ops p.mlp_inp inp)))
    (seqMLPForward ops p.mlp2
      (p.blocks2.foldl (fun a l => encLayerForward ops l a)
        (seqMLPForward ops p.mlp_inp inp))))) T B outD
  have hx : isShape3 (seqMLPForward ops p.mlp_inp inp) T B mid := by
    have := seqMLPForward_shape ops p.mlp_inp inp T B inpD hin hinp
    rwa [hinpD] at this
  have htmp1 : isShape3 (seqMLPForward ops p.mlp1
      (p.blocks1.foldl (fun a l => encLayerForward ops l a)
        (seqMLPForward ops p.mlp_inp inp))) T B mid := by
    have := seqMLPForward_shape ops p.mlp1 _ T B mid
      (encBlocks_shape ops p.blocks1 _ T B mid hb1 hx hT) hm1
    rwa [hm1D] at this
  have htmp2 : isShape3 (seqMLPForward ops p.mlp2
      (p.blocks2.foldl (fun a l => encLayerForward ops l a)
        (seqMLPForward ops p.mlp_inp inp))) T B mid := by
    have := seqMLPForward_shape ops p.mlp2 _ T B mid
      (encBlocks_shape ops p.blocks2 _ T B mid hb2 hx hT) hm2
    rwa [hm2D] at this
  have hcat := concatDim2_shape _ _ T B mid mid htmp1 htmp2
  have := seqMLPForward_shape ops p.mlp_out _ T B (mid + mid) hcat hout
  rwa [houtD] at this

theorem DilatedCNNRegNetForward_eq_pair (ops : ScalarOps) (pc : DilatedCNNRegNetP)
    (x : T3) {α : Type} (hid : Option α) :
    DilatedCNNRegNetForward ops pc x hid = (DilatedCNNRegNetOut ops pc x, none) := rfl

theorem DilatedCNNRegNetForward_fst (ops : ScalarOps) (pc : DilatedCNNRegNetP)
    (x : T3) {α : Type} (hid : Option α) :
    (DilatedCNNRegNetForward ops pc x hid).1 = DilatedCNNRegNetOut ops pc x :=
  by rw [DilatedCNNRegNetForward_eq_pair ops pc x hid]

theorem TransformerRegNetForward_eq_pair (ops : ScalarOps) (pt : TransformerRegNetP)
    (x : T3) {α : Type} (hid : Option α) :
    TransformerRegNetForward ops pt x hid = (TransformerRegNetOut ops pt x, none) := rfl

theorem TransformerRegNetForward_fst (ops : ScalarOps) (pt : TransformerRegNetP)
    (x : T3) {α : Type} (hid : Option α) :
    (TransformerRegNetForward ops pt x hid).1 = TransformerRegNetOut ops pt x :=
  by rw [TransformerRegNetForward_eq_pair ops pt x hid]

/-- C6: every network variant preserves the time and batch axes: for every
nonempty 3-D input of shape `(T, B, inp_dim)` (with a `None` hidden state for
the recurrent variant, and positive `mid` as built by the constructors), the
returned output sequence has shape `(T, B, out_dim)` where `out_dim` is the
constructor's output dimension. -/
theorem C6_output_shape (ops : ScalarOps) (pr : RnnRegNetP) (pc : DilatedCNNRegNetP)
    (pt : TransformerRegNetP) (inpD mid outD T B : ℕ) (x : T3)
    (hwr : RnnRegNetWf pr inpD mid outD) (hwc : DilatedCNNRegNetWf pc inpD mid outD)
    (hwt : TransformerRegNetWf pt inpD mid outD)
    (hx : isShape3 x T B inpD) (hT : 0 < T) (hB : 0 < B) (hmid : 0 < mid)
    {α β : Type} (hid2 : Option α) (hid3 : Option β) :
    isShape3 (RnnRegNetForward ops pr x none).1 T B outD ∧
      isShape3 (DilatedCNNRegNetForward ops pc x hid2).1 T B outD ∧
      isShape3 (TransformerRegNetForward ops pt x hid3).1 T B outD :=
  ⟨RnnRegNetForward_shape ops pr x T B inpD mid outD hwr hx,
    by
      rw [DilatedCNNRegNetForward_fst ops pc x hid2]
      exact DilatedCNNRegNetOut_shape ops pc x T B inpD mid outD hwc hx hT hB hmid,
    by
      rw [TransformerRegNetForward_fst ops pt x hid3]
      exact TransformerRegNetOut_shape ops pt x T B inpD mid outD hwt hx hT⟩

theorem rnnSeq_append {σ α β} (cell : σ → α → β × σ) :
    ∀ (xs ys : List α) (s : σ),
      rnnSeq cell s (xs ++ ys)
        = ((rnnSeq cell s xs).1 ++ (rnnSeq cell (rnnSeq cell s xs).2 ys).1,
            (rnnSeq cell (rnnSeq cell s xs).2 ys).2)
  | [], ys, s => by simp [rnnSeq]
  | x :: xs, ys, s => by
      simp only [List.cons_append, rnnSeq, List.append_eq]
      rw [rnnSeq_append cell xs ys (cell s x).2]

theorem lstmStack_append (ops : ScalarOps) :
    ∀ (ps : List LSTMLayer) (sts : List (Mat × Mat)) (xs ys : List Mat),
      lstmStack ops ps sts (xs ++ ys)
        = ((lstmStack ops ps sts xs).1
              ++ (lstmStack ops ps (lstmStack ops ps sts xs).2 ys).1,
            (lstmStack ops ps (lstmStack ops ps sts xs).2 ys).2)
  | [], sts, xs, ys => rfl
  | p :: ps, sts, xs, ys => by
      simp only [lstmStack]
      rw [rnnSeq_append (lstmCellBatch ops p) xs ys (sts.headD ([], []))]
      simp only [List.headD_cons, List.tail_cons]
      rw [lstmStack_append ops ps sts.tail
        (rnnSeq (lstmCellBatch ops p) (sts.headD ([], [])) xs).1
        (rnnSeq (lstmCellBatch ops p)
          (rnnSeq (lstmCellBatch ops p) (sts.headD ([], [])) xs).2 ys).1]

theorem gruStack_append (ops : ScalarOps) :
    ∀ (ps : List GRULayer) (sts : List Mat) (xs ys : List Mat),
      gruStack ops ps sts (xs ++ ys)
        = ((gruStack ops ps sts xs).1
              ++ (gruStack ops ps (gruStack ops ps sts xs).2 ys).1,
            (gruStack ops ps (gruStack ops ps sts xs).2 ys).2)
  | [], sts, xs, ys => rfl
  | p :: ps, sts, xs, ys => by
      simp only [gruStack]
      rw [rnnSeq_append (gruCellBatch ops p) xs ys (sts.headD [])]
      simp only [List.headD_cons, List.tail_cons]
      rw [gruStack_append ops ps sts.tail
        (rnnSeq (gruCellBatch ops p) (sts.headD []) xs).1
        (rnnSeq (gruCellBatch ops p)
          (rnnSeq (gruCellBatch ops p) (sts.headD []) xs).2 ys).1]

theorem seqMLPForward_nil (ops : ScalarOps) (ls : List LayerP) :
    seqMLPForward ops ls [] = [] := by
  simp [seqMLPForward, reshapeChunks]

theorem seqMLPForward_append (ops : ScalarOps) (ls : List LayerP) (a b : T3) (B : ℕ)
    (ha : ∀ m ∈ a, m.length = B) (hb : ∀ m ∈ b, m.length = B) :
    seqMLPForward ops ls (a ++ b) = seqMLPForward ops ls a ++ seqMLPForward ops ls b := by
  have hab : ∀ m ∈ a ++ b, m.length = B := by
    intro m hm
    rcases List.mem_append.mp hm with h | h
    exacts [ha m h, hb m h]
  rw [seqMLPForward_eq_map ops ls _ B hab, seqMLPForward_eq_map ops ls a B ha,
    seqMLPForward_eq_map ops ls b B hb, List.map_append]

theorem seqMLPForward_rows (ops : ScalarOps) (ls : List LayerP) (s : T3) (B : ℕ)
    (hs : ∀ m ∈ s, m.length = B) :
    ∀ m ∈ seqMLPForward ops ls s, m.length = B := by
  rw [seqMLPForward_eq_map ops ls s B hs]
  intro m hm
  obtain ⟨m0, hm0, rfl⟩ := List.mem_map.mp hm
  rw [List.length_map]
  exact hs m0 hm0

theorem rnnSeq_out_length {σ α β} (cell : σ → α → β × σ) :
    ∀ (xs : List α) (s : σ), (rnnSeq cell s xs).1.length = xs.length
  | [], _ => rfl
  | x :: xs, s => by
      simp only [rnnSeq, List.length_cons]
      rw [rnnSeq_out_length cell xs (cell s x).2]

theorem lstmStack_out_length (ops : ScalarOps) :
    ∀ (ps : List LSTMLayer) (sts : List (Mat × Mat)) (xs : List Mat),
      (lstmStack ops ps sts xs).1.length = xs.length
  | [], _, _ => rfl
  | p :: ps, sts, xs => by
      show (lstmStack ops ps sts.tail
        (rnnSeq (lstmCellBatch ops p) (sts.headD ([], [])) xs).1).1.length = xs.length
      rw [lstmStack_out_length ops ps sts.tail, rnnSeq_out_length]

theorem gruStack_out_length (ops : ScalarOps) :
    ∀ (ps : List GRULayer) (sts : List Mat) (xs : List Mat),
      (gruStack ops ps sts xs).1.length = xs.length
  | [], _, _ => rfl
  | p :: ps, sts, xs => by
      show (gruStack ops ps sts.tail
        (rnnSeq (gruCellBatch ops p) (sts.headD []) xs).1).1.length = xs.length
      rw [gruStack_out_length ops ps sts.tail, rnnSeq_out_length]

theorem lstmCellBatch_rows (ops : ScalarOps) (p : LSTMLayer) (st : Mat × Mat) (x : Mat)
    (B : ℕ) (h1 : st.1.length = B) (h2 : st.2.length = B) (hx : x.length = B) :
    (lstmCellBatch ops p st x).1.length = B ∧
      (lstmCellBatch ops p st x).2.1.length = B ∧
      (lstmCellBatch ops p st x).2.2.length = B := by
  have hz := zip3With_length_eq (fun h c xr => lstmCellRow ops p h c xr) st.1 st.2 x
    B h1 h2 hx
  refine ⟨?_, ?_, ?_⟩
  · show ((zip3With (fun h c xr => lstmCellRow ops p h c xr) st.1 st.2 x).map
      Prod.fst).length = B
    rw [List.length_map, hz]
  · show ((zip3With (fun h c xr => lstmCellRow ops p h c xr) st.1 st.2 x).map
      Prod.fst).length = B
    rw [List.length_map, hz]
  · show ((zip3With (fun h c xr => lstmCellRow ops p h c xr) st.1 st.2 x).map
      Prod.snd).length = B
    rw [List.length_map, hz]

theorem lstmSeq_rows (ops : ScalarOps) (p : LSTMLayer) :
    ∀ (xs : List Mat) (st : Mat × Mat) (B : ℕ),
      st.1.length = B → st.2.length = B → (∀ x ∈ xs, x.length = B) →
      (∀ m ∈ (rnnSeq (lstmCellBatch ops p) st xs).1, m.length = B) ∧
        (rnnSeq (lstmCellBatch ops p) st xs).2.1.length = B ∧
        (rnnSeq (lstmCellBatch ops p) st xs).2.2.length = B
  | [], st, B, h1, h2, _ => ⟨by simp [rnnSeq], by simpa [rnnSeq] using h1,
      by simpa [rnnSeq] using h2⟩
  | x :: xs, st, B, h1, h2, hxs => by
      have hcell := lstmCellBatch_rows ops p st x B h1 h2 (hxs x (by simp))
      have hrest := lstmSeq_rows ops p xs (lstmCellBatch ops p st x).2 B
        hcell.2.1 hcell.2.2 (fun m hm => hxs m (by simp [hm]))
      refine ⟨?_, by simpa [rnnSeq] using hrest.2.1, by simpa [rnnSeq] using hrest.2.2⟩
      intro m hm
      simp only [rnnSeq] at hm
      rcases List.mem_cons.mp hm with h | h
      · exact h ▸ hcell.1
      · exact hrest.1 m h

theorem lstmStack_rows (ops : ScalarOps) :
    ∀ (ps : List LSTMLayer) (sts : List (Mat × Mat)) (xs : List Mat) (B : ℕ),
      sts.length = ps.length → (∀ s ∈ sts, s.1.length = B ∧ s.2.length = B) →
      (∀ x ∈ xs, x.length = B) →
      (∀ m ∈ (lstmStack ops ps sts xs).1, m.length = B) ∧
        (lstmStack ops ps sts xs).2.length = ps.length ∧
        (∀ s ∈ (lstmStack ops ps sts xs).2, s.1.length = B ∧ s.2.length = B)
  | [], _, xs, B, _, _, hxs => ⟨hxs, rfl, by simp [lstmStack]⟩
  | p :: ps, sts, xs, B, hlen, hsts, hxs => by
      match sts, hlen, hsts with
      | s0 :: sts', hlen', hsts' =>
        have hs0 := hsts' s0 (by simp)
        have hseq := lstmSeq_rows ops p xs s0 B hs0.1 hs0.2 hxs
        have hrest := lstmStack_rows ops ps sts' _ B
          (by simpa using hlen') (fun s hs => hsts' s (by simp [hs])) hseq.1
        refine ⟨?_, ?_, ?_⟩
        · intro m hm
          exact hrest.1 m (by simpa [lstmStack] using hm)
        · show ((rnnSeq (lstmCellBatch ops p) ((s0 :: sts').headD ([], [])) xs).2 ::
            (lstmStack ops ps (s0 :: sts').tail _).2).length = ps.length + 1
          simp only [List.headD_cons, List.tail_cons, List.length_cons]
          rw [hrest.2.1]
        · intro s hs
          simp only [lstmStack, List.headD_cons, List.tail_cons] at hs
          rcases List.mem_cons.mp hs with h | h
          · exact h ▸ ⟨hseq.2.1, hseq.2.2⟩
          · exact hrest.2.2 s h

theorem gruCellBatch_rows (ops : ScalarOps) (p : GRULayer) (st : Mat) (x : Mat)
    (B : ℕ) (h1 : st.length = B) (hx : x.length = B) :
    (gruCellBatch ops p st x).1.length = B ∧ (gruCellBatch ops p st x).2.length = B := by
  have hz := length_zipWith_eq (fun h xr => gruCellRow ops p h xr) st x B h1 hx
  exact ⟨hz, hz⟩

theorem gruSeq_rows (ops : ScalarOps) (p : GRULayer) :
    ∀ (xs : List Mat) (st : Mat) (B : ℕ),
      st.length = B → (∀ x ∈ xs, x.length = B) →
      (∀ m ∈ (rnnSeq (gruCellBatch ops p) st xs).1, m.length = B) ∧
        (rnnSeq (gruCellBatch ops p) st xs).2.length = B
  | [], st, B, h1, _ => ⟨by simp [rnnSeq], by simpa [rnnSeq] using h1⟩
  | x :: xs, st, B, h1, hxs => by
      have hcell := gruCellBatch_rows ops p st x B h1 (hxs x (by simp))
      have hrest := gruSeq_rows ops p xs (gruCellBatch ops p st x).2 B
        hcell.2 (fun m hm => hxs m (by simp [hm]))
      refine ⟨?_, by simpa [rnnSeq] using hrest.2⟩
      intro m hm
      simp only [rnnSeq] at hm
      rcases List.mem_cons.mp hm with h | h
      · exact h ▸ hcell.1
      · exact hrest.1 m h

theorem gruStack_rows (ops : ScalarOps) :
    ∀ (ps : List GRULayer) (sts : List Mat) (xs : List Mat) (B : ℕ),
      sts.length = ps.length → (∀ s ∈ sts, s.length = B) →
      (∀ x ∈ xs, x.length = B) →
      (∀ m ∈ (gruStack ops ps sts xs).1, m.length = B) ∧
        (gruStack ops ps sts xs).2.length = ps.length ∧
        (∀ s ∈ (gruStack ops ps sts xs).2, s.length = B)
  | [], _, xs, B, _, _, hxs => ⟨hxs, rfl, by simp [gruStack]⟩
  | p :: ps, sts, xs, B, hlen, hsts, hxs => by
      match sts, hlen, hsts with
      | s0 :: sts', hlen', hsts' =>
        have hs0 := hsts' s0 (by simp)
        have hseq := gruSeq_rows ops p xs s0 B hs0 hxs
        have hrest := gruStack_rows ops ps sts' _ B
          (by simpa using hlen') (fun s hs => hsts' s (by simp [hs])) hseq.1
        refine ⟨?_, ?_, ?_⟩
        · intro m hm
          exact hrest.1 m (by simpa [gruStack] using hm)
        · show ((rnnSeq (gruCellBatch ops p) ((s0 :: sts').headD []) xs).2 ::
            (gruStack ops ps (s0 :: sts').tail _).2).length = ps.length + 1
          simp only [List.headD_cons, List.tail_cons, List.length_cons]
          rw [hrest.2.1]
        · intro s hs
          simp only [gruStack, List.headD_cons, List.tail_cons] at hs
          rcases List.mem_cons.mp hs with h | h
          · exact h ▸ hseq.2
          · exact hrest.2.2 s h

theorem lstmStack_append_fst (ops : ScalarOps) (ps : List LSTMLayer)
    (sts : List (Mat × Mat)) (xs ys : List Mat) :
    (lstmStack ops ps sts (xs ++ ys)).1
      = (lstmStack ops ps sts xs).1
          ++ (lstmStack ops ps (lstmStack ops ps sts xs).2 ys).1 := by
  rw [lstmStack_append ops ps sts xs ys]

theorem lstmStack_append_snd (ops : ScalarOps) (ps : List LSTMLayer)
    (sts : List (Mat × Mat)) (xs ys : List Mat) :
    (lstmStack ops ps sts (xs ++ ys)).2
      = (lstmStack ops ps (lstmStack ops ps sts xs).2 ys).2 := by
  rw [lstmStack_append ops ps sts xs ys]

theorem gruStack_append_fst (ops : ScalarOps) (ps : List GRULayer) (sts : List Mat)
    (xs ys : List Mat) :
    (gruStack ops ps sts (xs ++ ys)).1
      = (gruStack ops ps sts xs).1
          ++ (gruStack ops ps (gruStack ops ps sts xs).2 ys).1 := by
  rw [gruStack_append ops ps sts xs ys]

theorem gruStack_append_snd (ops : ScalarOps) (ps : List GRULayer) (sts : List Mat)
    (xs ys : List Mat) :
    (gruStack ops ps sts (xs ++ ys)).2
      = (gruStack ops ps (gruStack ops ps sts xs).2 ys).2 := by
  rw [gruStack_append ops ps sts xs ys]

theorem concatDim2_append (a b c d : T3) (h : a.length = c.length) :
    concatDim2 (a ++ b) (c ++ d) = concatDim2 a c ++ concatDim2 b d :=
  List.zipWith_append _ a b c d h

theorem concatDim2_rows (a b : T3) (B : ℕ) (ha : ∀ m ∈ a, m.length = B)
    (hb : ∀ m ∈ b, m.length = B) : ∀ m ∈ concatDim2 a b, m.length = B := by
  apply forall_mem_zipWith
  intro m hm n hn
  exact length_zipWith_eq _ m n B (ha m hm) (hb n hn)

theorem rnnFwdSt_append (ops : ScalarOps) (p : RnnRegNetP) (xs ys : List Mat)
    (st1 : LSTMHid) (st2 : GRUHid) (B : ℕ)
    (hxs : ∀ x ∈ xs, x.length = B) (hys : ∀ y ∈ ys, y.length = B)
    (h1l : st1.length = p.rnn1.length)
    (h1 : ∀ s ∈ st1, s.1.length = B ∧ s.2.length = B)
    (h2l : st2.length = p.rnn2.length) (h2 : ∀ s ∈ st2, s.length = B) :
    rnnFwdSt ops p st1 st2 (xs ++ ys)
      = ((rnnFwdSt ops p st1 st2 xs).1
            ++ (rnnFwdSt ops p (rnnFwdSt ops p st1 st2 xs).2.1
                (rnnFwdSt ops p st1 st2 xs).2.2 ys).1,
          (rnnFwdSt ops p (rnnFwdSt ops p st1 st2 xs).2.1
              (rnnFwdSt ops p st1 st2 xs).2.2 ys).2) := by
  have hA := seqMLPForward_rows ops p.mlp_inp xs B hxs
  have hC := seqMLPForward_rows ops p.mlp_inp ys B hys
  have hr1xs := lstmStack_rows ops p.rnn1 st1 (seqMLPForward ops p.mlp_inp xs) B
    h1l h1 hA
  have hr1ys := lstmStack_rows ops p.rnn1
    (lstmStack ops p.rnn1 st1 (seqMLPForward ops p.mlp_inp xs)).2
    (seqMLPForward ops p.mlp_inp ys) B hr1xs.2.1 hr1xs.2.2 hC
  have hr2xs := gruStack_rows ops p.rnn2 st2 (seqMLPForward ops p.mlp_inp xs) B
    h2l h2 hA
  have hr2ys := gruStack_rows ops p.rnn2
    (gruStack ops p.rnn2 st2 (seqMLPForward ops p.mlp_inp xs)).2
    (seqMLPForward ops p.mlp_inp ys) B hr2xs.2.1 hr2xs.2.2 hC
  have hlen1 : (seqMLPForward ops p.mlp1
      (lstmStack ops p.rnn1 st1 (seqMLPForward ops p.mlp_inp xs)).1).length
      = (seqMLPForward ops p.mlp2
        (gruStack ops p.rnn2 st2 (seqMLPForward ops p.mlp_inp xs)).1).length := by
    rw [seqMLPForward_length ops p.mlp1 _ B hr1xs.1,
      seqMLPForward_length ops p.mlp2 _ B hr2xs.1,
      lstmStack_out_length, gruStack_out_length]
  simp only [rnnFwdSt]
  rw [seqMLPForward_append ops p.mlp_inp xs ys B hxs hys,
    lstmStack_append_fst ops p.rnn1 st1, lstmStack_append_snd ops p.rnn1 st1,
    gruStack_append_fst ops p.rnn2 st2, gruStack_append_snd ops p.rnn2 st2,
    seqMLPForward_append ops p.mlp1 _ _ B hr1xs.1 hr1ys.1,
    seqMLPForward_append ops p.mlp2 _ _ B hr2xs.1 hr2ys.1,
    concatDim2_append _ _ _ _ hlen1,
    seqMLPForward_append ops p.mlp_out _ _ B
      (concatDim2_rows _ _ B (seqMLPForward_rows ops p.mlp1 _ B hr1xs.1)
        (seqMLPForward_rows ops p.mlp2 _ B hr2xs.1))
      (concatDim2_rows _ _ B (seqMLPForward_rows ops p.mlp1 _ B hr1ys.1)
        (seqMLPForward_rows ops p.mlp2 _ B hr2ys.1))]

theorem rnnFwdSt_append_fst (ops : ScalarOps) (p : RnnRegNetP) (xs ys : List Mat)
    (st1 : LSTMHid) (st2 : GRUHid) (B : ℕ)
    (hxs : ∀ x ∈ xs, x.length = B) (hys : ∀ y ∈ ys, y.length = B)
    (h1l : st1.length = p.rnn1.length)
    (h1 : ∀ s ∈ st1, s.1.length = B ∧ s.2.length = B)
    (h2l : st2.length = p.rnn2.length) (h2 : ∀ s ∈ st2, s.length = B) :
    (rnnFwdSt ops p st1 st2 (xs ++ ys)).1
      = (rnnFwdSt ops p st1 st2 xs).1
          ++ (rnnFwdSt ops p (rnnFwdSt ops p st1 st2 xs).2.1
              (rnnFwdSt ops p st1 st2 xs).2.2 ys).1 := by
  rw [rnnFwdSt_append ops p xs ys st1 st2 B hxs hys h1l h1 h2l h2]

theorem rnnFwdSt_nil_fst (ops : ScalarOps) (p : RnnRegNetP) (st1 : LSTMHid)
    (st2 : GRUHid) : (rnnFwdSt ops p st1 st2 []).1 = [] := by
  simp only [rnnFwdSt, seqMLPForward_nil]
  rw [lstmStack_nil, gruStack_nil]
  show seqMLPForward ops p.mlp_out (concatDim2 (seqMLPForward ops p.mlp1 [])
    (seqMLPForward ops p.mlp2 [])) = []
  simp only [seqMLPForward_nil]
  show seqMLPForward ops p.mlp_out [] = []
  exact seqMLPForward_nil ops p.mlp_out

theorem RnnRegNetForward_some_eq (ops : ScalarOps) (p : RnnRegNetP) (inp : T3)
    (s1 : LSTMHid) (s2 : GRUHid) :
    RnnRegNetForward ops p inp (some (s1, s2)) = rnnFwdSt ops p s1 s2 inp := rfl

theorem RnnRegNetForward_none_eq (ops : ScalarOps) (p : RnnRegNetP) (inp : T3) :
    RnnRegNetForward ops p inp none
      = rnnFwdSt ops p
          (p.rnn1.map (fun q =>
            (zeroMat ((seqMLPForward ops p.mlp_inp inp).getD 0 []).length q.hiddenSize,
              zeroMat ((seqMLPForward ops p.mlp_inp inp).getD 0 []).length q.hiddenSize)))
          (p.rnn2.map (fun q =>
            zeroMat ((seqMLPForward ops p.mlp_inp inp).getD 0 []).length q.hiddenSize))
          inp := rfl

theorem seqMLPForward_head_length (ops : ScalarOps) (ls : List LayerP) (x : Mat)
    (rest : T3) (B : ℕ) (hB : ∀ m ∈ x :: rest, m.length = B) :
    ((seqMLPForward ops ls (x :: rest)).getD 0 []).length = B := by
  rw [seqMLPForward_eq_map ops ls _ B hB]
  show (((x.map (applyMLP ops ls)) ::
    rest.map (fun m => m.map (applyMLP ops ls))).getD 0 []).length = B
  rw [List.getD_cons_zero, List.length_map]
  exact hB x (by simp)

theorem initLSTM_wf (ps : List LSTMLayer) (B : ℕ) :
    (ps.map (fun q => (zeroMat B q.hiddenSize, zeroMat B q.hiddenSize))).length
        = ps.length ∧
      ∀ s ∈ ps.map (fun q => (zeroMat B q.hiddenSize, zeroMat B q.hiddenSize)),
        s.1.length = B ∧ s.2.length = B := by
  refine ⟨List.length_map .., ?_⟩
  intro s hs
  obtain ⟨q, _, rfl⟩ := List.mem_map.mp hs
  exact ⟨List.length_replicate .., List.length_replicate ..⟩

theorem initGRU_wf (ps : List GRULayer) (B : ℕ) :
    (ps.map (fun q => zeroMat B q.hiddenSize)).length = ps.length ∧
      ∀ s ∈ ps.map (fun q => zeroMat B q.hiddenSize), s.length = B := by
  refine ⟨List.length_map .., ?_⟩
  intro s hs
  obtain ⟨q, _, rfl⟩ := List.mem_map.mp hs
  exact List.length_replicate ..

theorem rnnStep_join (ops : ScalarOps) (p : RnnRegNetP) (B : ℕ) :
    ∀ (xs : List Mat) (st1 : LSTMHid) (st2 : GRUHid),
      (∀ x ∈ xs, x.length = B) → st1.length = p.rnn1.length →
      (∀ s ∈ st1, s.1.length = B ∧ s.2.length = B) →
      st2.length = p.rnn2.length → (∀ s ∈ st2, s.length = B) →
      (rnnStepOutputs ops p xs (some (st1, st2))).flatten
        = (rnnFwdSt ops p st1 st2 xs).1
  | [], st1, st2, _, _, _, _, _ => by
      rw [show rnnStepOutputs ops p [] (some (st1, st2)) = [] from rfl,
        List.flatten_nil, rnnFwdSt_nil_fst]
  | x :: rest, st1, st2, hxs, h1l, h1, h2l, h2 => by
      have hx1 : ∀ m ∈ [x], m.length = B := by
        intro m hm
        rw [List.mem_singleton.mp hm]
        exact hxs x (by simp)
      have hrest : ∀ m ∈ rest, m.length = B := fun m hm => hxs m (by simp [hm])
      have hA := seqMLPForward_rows ops p.mlp_inp [x] B hx1
      have hn1 := lstmStack_rows ops p.rnn1 st1 (seqMLPForward ops p.mlp_inp [x]) B
        h1l h1 hA
      have hn2 := gruStack_rows ops p.rnn2 st2 (seqMLPForward ops p.mlp_inp [x]) B
        h2l h2 hA
      have hih := rnnStep_join ops p B rest
        (rnnFwdSt ops p st1 st2 [x]).2.1 (rnnFwdSt ops p st1 st2 [x]).2.2
        hrest hn1.2.1 hn1.2.2 hn2.2.1 hn2.2.2
      show ((RnnRegNetForward ops p [x] (some (st1, st2))).1 ::
        rnnStepOutputs ops p rest
          (some (RnnRegNetForward ops p [x] (some (st1, st2))).2)).flatten
        = (rnnFwdSt ops p st1 st2 (x :: rest)).1
      rw [RnnRegNetForward_some_eq ops p [x] st1 st2, List.flatten_cons,
        show (rnnFwdSt ops p st1 st2 [x]).2
          = ((rnnFwdSt ops p st1 st2 [x]).2.1, (rnnFwdSt ops p st1 st2 [x]).2.2) from rfl,
        hih,
        show (x :: rest) = [x] ++ rest from rfl,
        rnnFwdSt_append_fst ops p [x] rest st1 st2 B hx1 hrest h1l h1 h2l h2]

/-- C5: for `RnnRegNet` with fixed parameters in deterministic evaluation,
feeding the input sequence one time step at a time, starting from hidden state
`None` and threading the returned hidden-state pair into each successive call,
then concatenating the per-step outputs along the time axis, yields the same
output sequence as a single batched forward call on the whole sequence with
hidden state `None`. -/
theorem C5_rnn_step_vs_batched (ops : ScalarOps) (p : RnnRegNetP) (B : ℕ)
    (xs : List Mat) (hxs : ∀ x ∈ xs, x.length = B) :
    (rnnStepOutputs ops p xs none).flatten = (RnnRegNetForward ops p xs none).1 := by
  cases xs with
  | nil =>
      rw [show rnnStepOutputs ops p [] none = [] from rfl, List.flatten_nil,
        RnnRegNetForward_none_eq ops p [], rnnFwdSt_nil_fst]
  | cons x rest =>
      have hx1 : ∀ m ∈ [x], m.length = B := by
        intro m hm
        rw [List.mem_singleton.mp hm]
        exact hxs x (by simp)
      have hhead : ((seqMLPForward ops p.mlp_inp (x :: rest)).getD 0 []).length = B :=
        seqMLPForward_head_length ops p.mlp_inp x rest B hxs
      have hheadx : ((seqMLPForward ops p.mlp_inp [x]).getD 0 []).length = B :=
        seqMLPForward_head_length ops p.mlp_inp x [] B hx1
      have hstep := rnnStep_join ops p B (x :: rest)
        (p.rnn1.map (fun q => (zeroMat B q.hiddenSize, zeroMat B q.hiddenSize)))
        (p.rnn2.map (fun q => zeroMat B q.hiddenSize)) hxs
        (initLSTM_wf p.rnn1 B).1 (initLSTM_wf p.rnn1 B).2
        (initGRU_wf p.rnn2 B).1 (initGRU_wf p.rnn2 B).2
      rw [show rnnStepOutputs ops p (x :: rest)
          (some (p.rnn1.map (fun q => (zeroMat B q.hiddenSize, zeroMat B q.hiddenSize)),
            p.rnn2.map (fun q => zeroMat B q.hiddenSize)))
          = (RnnRegNetForward ops p [x]
              (some (p.rnn1.map (fun q =>
                  (zeroMat B q.hiddenSize, zeroMat B q.hiddenSize)),
                p.rnn2.map (fun q => zeroMat B q.hiddenSize)))).1 ::
            rnnStepOutputs ops p rest
              (some (RnnRegNetForward ops p [x]
                (some (p.rnn1.map (fun q =>
                    (zeroMat B q.hiddenSize, zeroMat B q.hiddenSize)),
                  p.rnn2.map (fun q => zeroMat B q.hiddenSize)))).2) from rfl,
        RnnRegNetForward_some_eq ops p [x]] at hstep
      show ((RnnRegNetForward ops p [x] none).1 ::
        rnnStepOutputs ops p rest
          (some (RnnRegNetForward ops p [x] none).2)).flatten
        = (RnnRegNetForward ops p (x :: rest) none).1
      rw [RnnRegNetForward_none_eq ops p [x], hheadx,
        RnnRegNetForward_none_eq ops p (x :: rest), hhead]
      exact hstep

/-- Witness for C5 at a concrete network and two-step input. -/
theorem C5_rnn_step_vs_batched_witness :
    (∀ x ∈ ([[[1]], [[2]]] : List Mat), x.length = 1) ∧
      (rnnStepOutputs idOps witRnnP2 [[[1]], [[2]]] none).flatten
        = (RnnRegNetForward idOps witRnnP2 [[[1]], [[2]]] none).1 :=
  ⟨by decide, C5_rnn_step_vs_batched idOps witRnnP2 1 [[[1]], [[2]]] (by decide)⟩

theorem zip4With_length {α β γ δ ε} (f : α → β → γ → δ → ε) :
    ∀ (l1 : List α) (l2 : List β) (l3 : List γ) (l4 : List δ),
      (zip4With f l1 l2 l3 l4).length
        = min (min (min l1.length l2.length) l3.length) l4.length
  | [], _, _, _ => by simp [zip4With]
  | _ :: _, [], _, _ => by simp [zip4With]
  | _ :: _, _ :: _, [], _ => by simp [zip4With]
  | _ :: _, _ :: _, _ :: _, [] => by simp [zip4With]
  | a :: as_, b :: bs, c :: cs, d :: ds => by
      simp only [zip4With, List.length_cons, zip4With_length f as_ bs cs ds,
        Nat.add_min_add_right]

theorem zip3With_length {α β γ δ} (f : α → β → γ → δ) :
    ∀ (l1 : List α) (l2 : List β) (l3 : List γ),
      (zip3With f l1 l2 l3).length = min (min l1.length l2.length) l3.length
  | [], _, _ => by simp [zip3With]
  | _ :: _, [], _ => by simp [zip3With]
  | _ :: _, _ :: _, [] => by simp [zip3With]
  | a :: as_, b :: bs, c :: cs => by
      simp only [zip3With, List.length_cons, zip3With_length f as_ bs cs,
        Nat.add_min_add_right]

theorem applyLayer_length_congr (ops : ScalarOps) (l : LayerP) (x y : Vec)
    (h : x.length = y.length) :
    (applyLayer ops l x).length = (applyLayer ops l y).length := by
  cases l with
  | batchNorm1d g b m v =>
      simp only [applyLayer, zip4With_length, List.length_zip, h]
  | linear w b =>
      simp only [applyLayer, linearRow, vadd, matvec, List.length_zipWith,
        List.length_map]
  | geluLayer => simpa [applyLayer] using h
  | layerNorm g b => simp only [applyLayer, layerNormRow, zip3With_length, h]
  | tanhLayer => simpa [applyLayer] using h

theorem applyMLP_length_congr (ops : ScalarOps) :
    ∀ (ls : List LayerP) (x y : Vec), x.length = y.length →
      (applyMLP ops ls x).length = (applyMLP ops ls y).length
  | [], _, _, h => h
  | l :: ls, x, y, h =>
      applyMLP_length_congr ops ls (applyLayer ops l x) (applyLayer ops l y)
        (applyLayer_length_congr ops l x y h)

theorem getD_zip_of_lt {α β} :
    ∀ (l1 : List α) (l2 : List β) (i : ℕ) (d : α × β),
      i < l1.length → i < l2.length → (l1.zip l2).getD i d = (l1.getD i d.1, l2.getD i d.2)
  | [], _, _, _, h, _ => by simp at h
  | _ :: _, [], _, _, _, h => by simp at h
  | a :: as_, b :: bs, 0, d, _, _ => rfl
  | a :: as_, b :: bs, i + 1, d, h1, h2 => by
      simp only [List.zip_cons_cons, List.getD_cons_succ]
      exact getD_zip_of_lt as_ bs i d (by simpa using h1) (by simpa using h2)

theorem getD_zip4With_of_lt {α β γ δ ε} (f : α → β → γ → δ → ε) :
    ∀ (l1 : List α) (l2 : List β) (l3 : List γ) (l4 : List δ) (i : ℕ)
      (d1 : α) (d2 : β) (d3 : γ) (d4 : δ) (d : ε),
      i < l1.length → i < l2.length → i < l3.length → i < l4.length →
      (zip4With f l1 l2 l3 l4).getD i d
        = f (l1.getD i d1) (l2.getD i d2) (l3.getD i d3) (l4.getD i d4)
  | [], _, _, _, _, _, _, _, _, _, h, _, _, _ => by simp at h
  | _ :: _, [], _, _, _, _, _, _, _, _, _, h, _, _ => by simp at h
  | _ :: _, _ :: _, [], _, _, _, _, _, _, _, _, _, h, _ => by simp at h
  | _ :: _, _ :: _, _ :: _, [], _, _, _, _, _, _, _, _, _, h => by simp at h
  | a :: as_, b :: bs, c :: cs, e :: es, 0, _, _, _, _, _, _, _, _, _ => rfl
  | a :: as_, b :: bs, c :: cs, e :: es, i + 1, d1, d2, d3, d4, d, h1, h2, h3, h4 => by
      simp only [zip4With, List.getD_cons_succ]
      exact getD_zip4With_of_lt f as_ bs cs es i d1 d2 d3 d4 d
        (by simpa using h1) (by simpa using h2) (by simpa using h3) (by simpa using h4)

theorem getD_map_range (g : ℕ → α) (n i : ℕ) (d : α) (h : i < n) :
    ((List.range n).map g).getD i d = g i := by
  rw [getD_map_of_lt g (List.range n) i d 0 (by simpa using h)]
  congr 1
  rw [List.getD_eq_getElem _ _ (by simpa using h)]
  simp

theorem getD_map_range_ge (g : ℕ → α) (n i : ℕ) (d : α) (h : n ≤ i) :
    ((List.range n).map g).getD i d = d :=
  getD_of_le _ i d (by simpa using h)

theorem atPad_agree (r1 r2 : Vec) (bound : ℕ)
    (h : ∀ n ≤ bound, r1.getD n 0 = r2.getD n 0) (i : ℤ) (hi : i ≤ (bound : ℤ)) :
    atPad r1 i = atPad r2 i := by
  unfold atPad
  by_cases hneg : i < 0
  · simp [hneg]
  · simp only [hneg, if_false]
    exact h i.toNat (by omega)

theorem zipWith_congr_rows {β γ : Type} (f : Vec → β → γ) (bound : ℕ)
    (hf : ∀ r1 r2 : Vec, (∀ s ≤ bound, r1.getD s 0 = r2.getD s 0) →
      ∀ z : β, f r1 z = f r2 z) :
    ∀ (x y : Mat) (c : List β), x.length = y.length →
      (∀ ci s, s ≤ bound → (x.getD ci []).getD s 0 = (y.getD ci []).getD s 0) →
      List.zipWith f x c = List.zipWith f y c
  | [], [], _, _, _ => by simp
  | [], _ :: _, _, h, _ => by simp at h
  | _ :: _, [], _, h, _ => by simp at h
  | x0 :: x', y0 :: y', c, hlen, hag => by
      cases c with
      | nil => simp
      | cons z zs =>
          simp only [List.zipWith_cons_cons]
          rw [hf x0 y0 (fun s hs => hag 0 s hs) z,
            zipWith_congr_rows f bound hf x' y' zs (by simpa using hlen)
              (fun ci s hs => hag (ci + 1) s hs)]

theorem getD_zipWith_of_not_lt {α β γ} (f : α → β → γ) (l1 : List α) (l2 : List β)
    (i : ℕ) (d : γ) (h : ¬(i < l1.length ∧ i < l2.length)) :
    (List.zipWith f l1 l2).getD i d = d :=
  getD_of_le _ i d (by rw [List.length_zipWith]; omega)

theorem conv1dSame_agree (c : ConvLayer) (x y : Mat) (k : ℕ)
    (h : matAgree (k + convLookahead c) x y) :
    matAgree k (conv1dSame c x) (conv1dSame c y) := by
  obtain ⟨hlen, hrows, hag⟩ := h
  have hT : (x.getD 0 []).length = (y.getD 0 []).length := hrows 0
  simp only [conv1dSame]
  rw [hT]
  refine ⟨by rw [List.length_zipWith, List.length_zipWith], ?_, ?_⟩
  · intro ch
    by_cases hch : ch < c.w.length ∧ ch < c.b.length
    · rw [getD_zipWith_of_lt _ c.w c.b ch [] 0 [] hch.1 hch.2,
        getD_zipWith_of_lt _ c.w c.b ch [] 0 [] hch.1 hch.2]
      simp
    · rw [getD_zipWith_of_not_lt _ c.w c.b ch [] hch,
        getD_zipWith_of_not_lt _ c.w c.b ch [] hch]
  · intro ch s hs
    by_cases hch : ch < c.w.length ∧ ch < c.b.length
    · rw [getD_zipWith_of_lt _ c.w c.b ch [] 0 [] hch.1 hch.2,
        getD_zipWith_of_lt _ c.w c.b ch [] 0 [] hch.1 hch.2]
      by_cases hsT : s < (y.getD 0 []).length
      · rw [getD_map_range _ _ s 0 hsT, getD_map_range _ _ s 0 hsT]
        congr 1
        congr 1
        apply zipWith_congr_rows _ (k + convLookahead c) _ x y _ hlen hag
        intro r1 r2 hr z
        congr 1
        apply List.map_congr_left
        intro j hj
        congr 1
        apply atPad_agree r1 r2 (k + convLookahead c) hr
        have hjk : j ≤ c.kernel - 1 := by
          have := List.mem_range.mp hj
          omega
        have h1 : j * c.dil ≤ c.dil * (c.kernel - 1) := by
          rw [Nat.mul_comm]
          exact Nat.mul_le_mul_left c.dil hjk
        simp only [convLookahead]
        generalize hDd : c.dil * (c.kernel - 1) = D at h1 ⊢
        have hmulZ : (j : ℤ) * (c.dil : ℤ) ≤ (D : ℤ) := by exact_mod_cast h1
        generalize hA : (j : ℤ) * (c.dil : ℤ) = A at hmulZ ⊢
        omega
      · rw [getD_map_range_ge _ _ s 0 (by omega), getD_map_range_ge _ _ s 0 (by omega)]
    · rw [getD_zipWith_of_not_lt _ c.w c.b ch [] hch,
        getD_zipWith_of_not_lt _ c.w c.b ch [] hch]

theorem matAgree_mono (k k' : ℕ) (m1 m2 : Mat) (h : k ≤ k') (ha : matAgree k' m1 m2) :
    matAgree k m1 m2 :=
  ⟨ha.1, ha.2.1, fun c s hs => ha.2.2 c s (by omega)⟩

theorem getD_zip4With_of_not_lt {α β γ δ ε} (f : α → β → γ → δ → ε)
    (l1 : List α) (l2 : List β) (l3 : List γ) (l4 : List δ) (i : ℕ) (d : ε)
    (h : ¬(i < l1.length ∧ i < l2.length ∧ i < l3.length ∧ i < l4.length)) :
    (zip4With f l1 l2 l3 l4).getD i d = d :=
  getD_of_le _ i d (by rw [zip4With_length]; omega)

theorem dilatedCNNForward_agree (ops : ScalarOps) (l : DilatedCNNLayer) (x y : Mat)
    (k : ℕ) (h : matAgree (k + convLookahead l.conv) x y) :
    matAgree k (dilatedCNNForward ops l x) (dilatedCNNForward ops l y) := by
  obtain ⟨hlen, hrows, hag⟩ := conv1dSame_agree l.conv x y k h
  simp only [dilatedCNNForward]
  have hzip : (l.v.zip (conv1dSame l.conv x)).length
      = (l.v.zip (conv1dSame l.conv y)).length := by
    rw [List.length_zip, List.length_zip, hlen]
  refine ⟨?_, ?_, ?_⟩
  · rw [zip4With_length, zip4With_length, hzip]
  · intro ch
    by_cases hch : ch < l.g.length ∧ ch < l.b.length ∧ ch < l.m.length ∧
        ch < (l.v.zip (conv1dSame l.conv x)).length
    · have hvx : ch < l.v.length ∧ ch < (conv1dSame l.conv x).length := by
        have := hch.2.2.2
        rw [List.length_zip] at this
        omega
      have hvy : ch < l.v.length ∧ ch < (conv1dSame l.conv y).length := by
        constructor
        · exact hvx.1
        · omega
      rw [getD_zip4With_of_lt _ l.g l.b l.m _ ch 0 0 0 (0, []) [] hch.1 hch.2.1
          hch.2.2.1 hch.2.2.2,
        getD_zip4With_of_lt _ l.g l.b l.m _ ch 0 0 0 (0, []) [] hch.1 hch.2.1
          hch.2.2.1 (by omega),
        getD_zip_of_lt l.v _ ch (0, []) hvx.1 hvx.2,
        getD_zip_of_lt l.v _ ch (0, []) hvy.1 hvy.2]
      simp only [bnReluChannel, List.length_map]
      exact hrows ch
    · have hch' : ¬(ch < l.g.length ∧ ch < l.b.length ∧ ch < l.m.length ∧
          ch < (l.v.zip (conv1dSame l.conv y)).length) := by
        rw [← hzip]
        exact hch
      rw [getD_zip4With_of_not_lt _ l.g l.b l.m _ ch [] hch,
        getD_zip4With_of_not_lt _ l.g l.b l.m _ ch [] hch']
  · intro ch s hs
    by_cases hch : ch < l.g.length ∧ ch < l.b.length ∧ ch < l.m.length ∧
        ch < (l.v.zip (conv1dSame l.conv x)).length
    · have hvx : ch < l.v.length ∧ ch < (conv1dSame l.conv x).length := by
        have := hch.2.2.2
        rw [List.length_zip] at this
        omega
      have hvy : ch < l.v.length ∧ ch < (conv1dSame l.conv y).length := by
        constructor
        · exact hvx.1
        · omega
      rw [getD_zip4With_of_lt _ l.g l.b l.m _ ch 0 0 0 (0, []) [] hch.1 hch.2.1
          hch.2.2.1 hch.2.2.2,
        getD_zip4With_of_lt _ l.g l.b l.m _ ch 0 0 0 (0, []) [] hch.1 hch.2.1
          hch.2.2.1 (by omega),
        getD_zip_of_lt l.v _ ch (0, []) hvx.1 hvx.2,
        getD_zip_of_lt l.v _ ch (0, []) hvy.1 hvy.2]
      simp only [bnReluChannel]
      by_cases hsl : s < ((conv1dSame l.conv x).getD ch []).length
      · rw [getD_map_of_lt _ _ s 0 0 hsl,
          getD_map_of_lt _ _ s 0 0 (by rw [← hrows ch]; exact hsl),
          hag ch s hs]
      · rw [getD_of_le _ s 0 (by rw [List.length_map]; omega),
          getD_of_le _ s 0 (by rw [List.length_map, ← hrows ch]; omega)]
    · have hch' : ¬(ch < l.g.length ∧ ch < l.b.length ∧ ch < l.m.length ∧
          ch < (l.v.zip (conv1dSame l.conv y)).length) := by
        rw [← hzip]
        exact hch
      rw [getD_zip4With_of_not_lt _ l.g l.b l.m _ ch [] hch,
        getD_zip4With_of_not_lt _ l.g l.b l.m _ ch [] hch']

theorem dilatedBranch_agree (ops : ScalarOps) :
    ∀ (ls : List DilatedCNNLayer) (x y : Mat) (k : ℕ),
      matAgree (k + branchLookahead ls) x y →
      matAgree k (ls.foldl (fun acc l => dilatedCNNForward ops l acc) x)
        (ls.foldl (fun acc l => dilatedCNNForward ops l acc) y)
  | [], x, y, k, h => by
      simpa [branchLookahead] using h
  | l :: ls, x, y, k, h => by
      have hstep : matAgree ((k + branchLookahead ls) + convLookahead l.conv) x y := by
        have heq : (k + branchLookahead ls) + convLookahead l.conv
            = k + branchLookahead (l :: ls) := by
          simp only [branchLookahead, List.map_cons, List.sum_cons]
          omega
        rw [heq]
        exact h
      exact dilatedBranch_agree ops ls (dilatedCNNForward ops l x)
        (dilatedCNNForward ops l y) k
        (dilatedCNNForward_agree ops l x y (k + branchLookahead ls) hstep)

theorem permute120_matAgree (u v : T3) (k : ℕ) (hlen : u.length = v.length)
    (hag : ∀ s ≤ k, u.getD s [] = v.getD s []) :
    ∀ b, matAgree k ((permute120 u).getD b []) ((permute120 v).getD b []) := by
  have h0 : u.getD 0 [] = v.getD 0 [] := hag 0 (by omega)
  have hB : (u.getD 0 []).length = (v.getD 0 []).length := by rw [h0]
  have hM : ((u.getD 0 []).getD 0 []).length = ((v.getD 0 []).getD 0 []).length := by
    rw [h0]
  intro b
  simp only [permute120]
  rw [hlen, hB, hM]
  by_cases hb : b < (v.getD 0 []).length
  · rw [getD_map_range _ _ b [] hb, getD_map_range _ _ b [] hb]
    refine ⟨by simp, ?_, ?_⟩
    · intro c
      by_cases hc : c < ((v.getD 0 []).getD 0 []).length
      · rw [getD_map_range _ _ c [] hc, getD_map_range _ _ c [] hc]
        simp
      · rw [getD_map_range_ge _ _ c [] (by omega), getD_map_range_ge _ _ c [] (by omega)]
    · intro c s hs
      by_cases hc : c < ((v.getD 0 []).getD 0 []).length
      · rw [getD_map_range _ _ c [] hc, getD_map_range _ _ c [] hc]
        by_cases hsT : s < v.length
        · rw [getD_map_range _ _ s 0 hsT, getD_map_range _ _ s 0 hsT, hag s hs]
        · rw [getD_map_range_ge _ _ s 0 (by omega), getD_map_range_ge _ _ s 0 (by omega)]
      · rw [getD_map_range_ge _ _ c [] (by omega), getD_map_range_ge _ _ c [] (by omega)]
  · rw [getD_map_range_ge _ _ b [] (by omega), getD_map_range_ge _ _ b [] (by omega)]
    exact ⟨rfl, fun c => rfl, fun c s _ => rfl⟩

theorem permute201_timeAgree (yu yv : T3) (k : ℕ) (hlen : yu.length = yv.length)
    (hb : ∀ b, matAgree k (yu.getD b []) (yv.getD b [])) :
    timeAgree k (permute201 yu) (permute201 yv) := by
  have hM : (yu.getD 0 []).length = (yv.getD 0 []).length := (hb 0).1
  have hT : ((yu.getD 0 []).getD 0 []).length = ((yv.getD 0 []).getD 0 []).length :=
    (hb 0).2.1 0
  constructor
  · simp only [permute201]
    rw [hT]
    simp
  · intro s hs
    simp only [permute201]
    rw [hlen, hM, hT]
    by_cases hsT : s < ((yv.getD 0 []).getD 0 []).length
    · rw [getD_map_range _ _ s [] hsT, getD_map_range _ _ s [] hsT]
      apply List.map_congr_left
      intro b _
      apply List.map_congr_left
      intro c _
      exact (hb b).2.2 c s hs
    · rw [getD_map_range_ge _ _ s [] (by omega), getD_map_range_ge _ _ s [] (by omega)]

theorem permute201_rows (y : T3) :
    ∀ m ∈ permute201 y, m.length = y.length := by
  simp only [permute201]
  apply forall_mem_range_map
  intro t _
  simp

theorem seqMLP_timeAgree (ops : ScalarOps) (ls : List LayerP) (u v : T3) (Bu Bv k : ℕ)
    (hu : ∀ m ∈ u, m.length = Bu) (hv : ∀ m ∈ v, m.length = Bv)
    (h : timeAgree k u v) :
    timeAgree k (seqMLPForward ops ls u) (seqMLPForward ops ls v) := by
  rw [seqMLPForward_eq_map ops ls u Bu hu, seqMLPForward_eq_map ops ls v Bv hv]
  refine ⟨by rw [List.length_map, List.length_map, h.1], ?_⟩
  intro s hs
  by_cases hsT : s < u.length
  · rw [getD_map_of_lt _ u s [] [] hsT, getD_map_of_lt _ v s [] [] (by omega),
      h.2 s hs]
  · rw [getD_of_le _ s [] (by rw [List.length_map]; omega),
      getD_of_le _ s [] (by rw [List.length_map, ← h.1]; omega)]

theorem concatDim2_timeAgree (a b a' b' : T3) (k : ℕ)
    (ha : timeAgree k a a') (hb : timeAgree k b b') :
    timeAgree k (concatDim2 a b) (concatDim2 a' b') := by
  have hla : a.length = a'.length := ha.1
  have hlb : b.length = b'.length := hb.1
  simp only [concatDim2]
  refine ⟨by rw [List.length_zipWith, List.length_zipWith, hla, hlb], ?_⟩
  intro s hs
  by_cases hab : s < a.length ∧ s < b.length
  · rw [getD_zipWith_of_lt _ a b s [] [] [] hab.1 hab.2,
      getD_zipWith_of_lt _ a' b' s [] [] [] (by omega) (by omega),
      ha.2 s hs, hb.2 s hs]
  · rw [getD_zipWith_of_not_lt _ a b s [] hab,
      getD_zipWith_of_not_lt _ a' b' s [] (by omega)]

theorem DilatedCNNRegNetOut_eq (ops : ScalarOps) (p : DilatedCNNRegNetP) (inp : T3) :
    DilatedCNNRegNetOut ops p inp
      = seqMLPForward ops p.mlp_out (concatDim2
          (seqMLPForward ops p.mlp1 (permute201
            ((permute120 (seqMLPForward ops p.mlp_inp inp)).map
              (fun chans => p.branch1.foldl
                (fun acc l => dilatedCNNForward ops l acc) chans))))
          (seqMLPForward ops p.mlp2 (permute201
            ((permute120 (seqMLPForward ops p.mlp_inp inp)).map
              (fun chans => p.branch2.foldl
                (fun acc l => dilatedCNNForward ops l acc) chans))))) := rfl

/-- C1 amended: the branch convolutions of `DilatedCNNRegNet` are dilated but
symmetrically (`'same'`)-padded rather than causal-padded, so the output at a
time step may depend on later inputs, but only boundedly many: whenever two
input sequences of the same shape agree at every time step up to and including
`t + L`, where `L` is the larger of the two branches' total right-padding
lookaheads, the two forward outputs agree at every time step up to and
including `t`. -/
theorem C1_amended_bounded_lookahead (ops : ScalarOps) (p : DilatedCNNRegNetP)
    (u v : T3) (T B F t : ℕ) (hu : isShape3 u T B F) (hv : isShape3 v T B F)
    (hagree : ∀ s,
      s ≤ t + max (branchLookahead p.branch1) (branchLookahead p.branch2) →
      u.getD s [] = v.getD s []) {α : Type} (hidu hidv : Option α) :
    ∀ s ≤ t, (DilatedCNNRegNetForward ops p u hidu).1.getD s []
        = (DilatedCNNRegNetForward ops p v hidv).1.getD s [] := by
  intro s hst
  rw [DilatedCNNRegNetForward_fst ops p u hidu, DilatedCNNRegNetForward_fst ops p v hidv,
    DilatedCNNRegNetOut_eq ops p u, DilatedCNNRegNetOut_eq ops p v]
  set Au := seqMLPForward ops p.mlp_inp u with hAudef
  set Av := seqMLPForward ops p.mlp_inp v with hAvdef
  set o1u := (permute120 Au).map
    (fun chans => p.branch1.foldl (fun acc l => dilatedCNNForward ops l acc) chans)
    with ho1udef
  set o2u := (permute120 Au).map
    (fun chans => p.branch2.foldl (fun acc l => dilatedCNNForward ops l acc) chans)
    with ho2udef
  set o1v := (permute120 Av).map
    (fun chans => p.branch1.foldl (fun acc l => dilatedCNNForward ops l acc) chans)
    with ho1vdef
  set o2v := (permute120 Av).map
    (fun chans => p.branch2.foldl (fun acc l => dilatedCNNForward ops l acc) chans)
    with ho2vdef
  have hlen : u.length = v.length := by rw [hu.1, hv.1]
  have htin : timeAgree
      (t + max (branchLookahead p.branch1) (branchLookahead p.branch2)) u v :=
    ⟨hlen, hagree⟩
  have hA : timeAgree
      (t + max (branchLookahead p.branch1) (branchLookahead p.branch2)) Au Av :=
    seqMLP_timeAgree ops p.mlp_inp u v B B _
      (fun m hm => (hu.2 m hm).1) (fun m hm => (hv.2 m hm).1) htin
  have hperm := permute120_matAgree Au Av _ hA.1 hA.2
  have hhead : Au.getD 0 [] = Av.getD 0 [] := hA.2 0 (by omega)
  have hpermlen : (permute120 Au).length = (permute120 Av).length := by
    simp only [permute120]
    rw [List.length_map, List.length_map, List.length_range, List.length_range, hhead]
  have hbr1 : ∀ b, matAgree t (o1u.getD b []) (o1v.getD b []) := by
    intro b
    rw [ho1udef, ho1vdef]
    by_cases hb : b < (permute120 Au).length
    · rw [getD_map_of_lt _ _ b [] [] hb, getD_map_of_lt _ _ b [] [] (by omega)]
      refine dilatedBranch_agree ops p.branch1 _ _ t
        (matAgree_mono _ _ _ _ ?_ (hperm b))
      have := le_max_left (branchLookahead p.branch1) (branchLookahead p.branch2)
      omega
    · rw [getD_of_le _ b [] (by rw [List.length_map]; omega),
        getD_of_le _ b [] (by rw [List.length_map]; omega)]
      exact ⟨rfl, fun c => rfl, fun c s _ => rfl⟩
  have hbr2 : ∀ b, matAgree t (o2u.getD b []) (o2v.getD b []) := by
    intro b
    rw [ho2udef, ho2vdef]
    by_cases hb : b < (permute120 Au).length
    · rw [getD_map_of_lt _ _ b [] [] hb, getD_map_of_lt _ _ b [] [] (by omega)]
      refine dilatedBranch_agree ops p.branch2 _ _ t
        (matAgree_mono _ _ _ _ ?_ (hperm b))
      have := le_max_right (branchLookahead p.branch1) (branchLookahead p.branch2)
      omega
    · rw [getD_of_le _ b [] (by rw [List.length_map]; omega),
        getD_of_le _ b [] (by rw [List.length_map]; omega)]
      exact ⟨rfl, fun c => rfl, fun c s _ => rfl⟩
  have ho1len : o1u.length = o1v.length := by
    rw [ho1udef, ho1vdef, List.length_map, List.length_map, hpermlen]
  have ho2len : o2u.length = o2v.length := by
    rw [ho2udef, ho2vdef, List.length_map, List.length_map, hpermlen]
  have htmp1 : timeAgree t (seqMLPForward ops p.mlp1 (permute201 o1u))
      (seqMLPForward ops p.mlp1 (permute201 o1v)) :=
    seqMLP_timeAgree ops p.mlp1 _ _ o1u.length o1v.length t
      (permute201_rows o1u) (permute201_rows o1v)
      (permute201_timeAgree o1u o1v t ho1len hbr1)
  have htmp2 : timeAgree t (seqMLPForward ops p.mlp2 (permute201 o2u))
      (seqMLPForward ops p.mlp2 (permute201 o2v)) :=
    seqMLP_timeAgree ops p.mlp2 _ _ o2u.length o2v.length t
      (permute201_rows o2u) (permute201_rows o2v)
      (permute201_timeAgree o2u o2v t ho2len hbr2)
  have hcat := concatDim2_timeAgree _ _ _ _ t htmp1 htmp2
  have hrows1u : ∀ m ∈ seqMLPForward ops p.mlp1 (permute201 o1u),
      m.length = (permute120 Au).length := by
    intro m hm
    rw [seqMLPForward_rows ops p.mlp1 (permute201 o1u) o1u.length
      (permute201_rows o1u) m hm, ho1udef, List.length_map]
  have hrows2u : ∀ m ∈ seqMLPForward ops p.mlp2 (permute201 o2u),
      m.length = (permute120 Au).length := by
    intro m hm
    rw [seqMLPForward_rows ops p.mlp2 (permute201 o2u) o2u.length
      (permute201_rows o2u) m hm, ho2udef, List.length_map]
  have hrows1v : ∀ m ∈ seqMLPForward ops p.mlp1 (permute201 o1v),
      m.length = (permute120 Av).length := by
    intro m hm
    rw [seqMLPForward_rows ops p.mlp1 (permute201 o1v) o1v.length
      (permute201_rows o1v) m hm, ho1vdef, List.length_map]
  have hrows2v : ∀ m ∈ seqMLPForward ops p.mlp2 (permute201 o2v),
      m.length = (permute120 Av).length := by
    intro m hm
    rw [seqMLPForward_rows ops p.mlp2 (permute201 o2v) o2v.length
      (permute201_rows o2v) m hm, ho2vdef, List.length_map]
  exact (seqMLP_timeAgree ops p.mlp_out _ _ _ _ t
    (concatDim2_rows _ _ _ hrows1u hrows2u)
    (concatDim2_rows _ _ _ hrows1v hrows2v) hcat).2 s hst

section
set_option allowUnsafeReducibility true
set_option maxRecDepth 10000
attribute [local semireducible] Rat.add Rat.mul Rat.sub Rat.inv Rat.ofScientific

/-- C1 counterexample: in `DilatedCNNRegNet` (evaluation mode, fixed
parameters) the 1-D convolutions are dilated but `'same'`-padded, not
causal-padded.  The concrete network `cexCnnP` and the input pair
`cexU`/`cexV` agree at every time step up to and including `t = 0`, yet the
two forward outputs already differ at time step 0: the output at a time step
does depend on later input time steps, refuting the claim as stated. -/
theorem C1_causality_counterexample :
    cexU.getD 0 [] = cexV.getD 0 [] ∧
      (DilatedCNNRegNetForward cexOps cexCnnP cexU (none : Option Unit)).1.getD 0 []
        ≠ (DilatedCNNRegNetForward cexOps cexCnnP cexV (none : Option Unit)).1.getD 0 [] :=
  ⟨rfl, by decide⟩

/-- Witness for the amended C1 at a concrete network and input pair: the two
inputs agree up to `t + L` with `t = 0` and lookahead `L = 2` (they differ at
time step 3), so the outputs agree at time step 0. -/
theorem C1_amended_bounded_lookahead_witness :
    (isShape3 ([[[0]], [[0]], [[1]], [[5]]] : T3) 4 1 1 ∧
        isShape3 ([[[0]], [[0]], [[1]], [[7]]] : T3) 4 1 1 ∧
        (∀ s, s ≤ 0 + max (branchLookahead cexCnnP.branch1)
            (branchLookahead cexCnnP.branch2) →
          ([[[0]], [[0]], [[1]], [[5]]] : T3).getD s []
            = ([[[0]], [[0]], [[1]], [[7]]] : T3).getD s [])) ∧
      ∀ s ≤ 0,
        (DilatedCNNRegNetForward cexOps cexCnnP [[[0]], [[0]], [[1]], [[5]]]
          (none : Option Unit)).1.getD s []
          = (DilatedCNNRegNetForward cexOps cexCnnP [[[0]], [[0]], [[1]], [[7]]]
            (none : Option Unit)).1.getD s [] :=
  ⟨⟨by decide, by decide, by decide⟩,
    C1_amended_bounded_lookahead cexOps cexCnnP
      [[[0]], [[0]], [[1]], [[5]]] [[[0]], [[0]], [[1]], [[7]]] 4 1 1 0
      (by decide) (by decide) (by decide) (none : Option Unit) (none : Option Unit)⟩

end

/-- Witness for C6 at a concrete network triple and input. -/
theorem C6_output_shape_witness :
    (RnnRegNetWf witRnnP 1 1 1 ∧ DilatedCNNRegNetWf witCnnP 1 1 1 ∧
        TransformerRegNetWf witTransP 1 1 1 ∧ isShape3 [[[(2 : ℚ)]]] 1 1 1 ∧ 0 < 1) ∧
      isShape3 (RnnRegNetForward idOps witRnnP [[[(2 : ℚ)]]] none).1 1 1 1 ∧
      isShape3 (DilatedCNNRegNetForward idOps witCnnP [[[(2 : ℚ)]]]
        (none : Option Unit)).1 1 1 1 ∧
      isShape3 (TransformerRegNetForward idOps witTransP [[[(2 : ℚ)]]]
        (none : Option Unit)).1 1 1 1 :=
  ⟨⟨by decide, by decide, by decide, by decide, by decide⟩,
    C6_output_shape idOps witRnnP witCnnP witTransP 1 1 1 1 1 [[[(2 : ℚ)]]]
      (by decide) (by decide) (by decide) (by decide) (by decide) (by decide) (by decide)
      (none : Option Unit) (none : Option Unit)⟩

end SeqNet
